import Mathlib

/-!
# Fitness backend: verification of the Telegram initData check and workout storage

A shallow embedding of the core of the backend: the Telegram WebApp initData
verification (canonicalization, HMAC-SHA-256, timing-safe comparison, expiry)
and the workout read/replace handlers over a relational store model.

Every definition is translated from the backend source (src/index.js, the
robust revision of the verifier and the workout handlers). Platform library
functions that the source calls (Node crypto, URLSearchParams, Number,
String.prototype methods, the Supabase query builder) are modelled here as
pure functions, each with a doc comment stating the modelling assumptions.
-/

namespace FitnessBackend

/-! ## Generic comparison helpers -/

/-- Three-way comparison on naturals, written with plain conditionals so that
proofs can split on it directly. -/
def natCmp (a b : Nat) : Ordering :=
  if a < b then .lt else if b < a then .gt else .eq

/-- Lexicographic three-way comparison of lists of naturals. -/
def natListCmp : List Nat → List Nat → Ordering
  | [], [] => .eq
  | [], _ :: _ => .lt
  | _ :: _, [] => .gt
  | a :: as, b :: bs =>
    match natCmp a b with
    | .eq => natListCmp as bs
    | o => o

/-! ## Bytes and strings

Node buffers are modelled as `List Nat`, each element a byte value below 256.
-/

/-- UTF-8 encoding of a single character, the byte sequence `Buffer.from`
produces for it.  Written with `/` and `%` so that arithmetic facts about it
are within reach of `omega`. -/
def utf8Char (c : Char) : List Nat :=
  if c.toNat < 128 then [c.toNat]
  else if c.toNat < 2048 then [192 + c.toNat / 64, 128 + c.toNat % 64]
  else if c.toNat < 65536 then
    [224 + c.toNat / 4096, 128 + c.toNat / 64 % 64, 128 + c.toNat % 64]
  else
    [240 + c.toNat / 262144, 128 + c.toNat / 4096 % 64, 128 + c.toNat / 64 % 64,
      128 + c.toNat % 64]

/-- The UTF-8 bytes of a string: what `Buffer.from(s)` holds.  Models the
byte view Node takes of a JavaScript string. -/
def utf8 : List Char → List Nat
  | [] => []
  | c :: cs => utf8Char c ++ utf8 cs

/-- `utf8` lifted to `String`. -/
def utf8Str (s : String) : List Nat := utf8 s.data

/-- ASCII lowercasing of one character.  Models `String.prototype.toLowerCase`
on the ASCII range; the full Unicode case mappings of the platform are outside
the repertoire this development uses (hex and base64url digests and the
incoming hash strings compared against them). -/
def asciiLower (c : Char) : Char :=
  if 'A' ≤ c ∧ c ≤ 'Z' then Char.ofNat (c.toNat + 32) else c

/-- Models `s.toLowerCase()` (ASCII repertoire, see `asciiLower`). -/
def jsToLower (s : String) : String := String.mk (s.data.map asciiLower)

/-- The JavaScript whitespace class that `trim` and `Number` strip: ASCII
whitespace plus the no-break space and the BOM (the exotic Unicode space
separators are outside the repertoire of this development). -/
def isJsSpace (c : Char) : Bool :=
  c = ' ' ∨ c = '\t' ∨ c = '\n' ∨ c = '\r' ∨ c = '\x0b' ∨ c = '\x0c' ∨
    c.toNat = 160 ∨ c.toNat = 65279

/-- Models `s.trim()` (see `isJsSpace`). -/
def jsTrim (s : String) : String :=
  String.mk (((s.data.dropWhile isJsSpace).reverse.dropWhile isJsSpace).reverse)

/-! ## Hex and base64url renderings -/

/-- Lowercase hex digit for a value below 16. -/
def hexDigit (n : Nat) : Char :=
  if n < 10 then Char.ofNat (48 + n) else Char.ofNat (87 + n)

/-- Lowercase hex rendering of a byte list: `buf.toString("hex")`. -/
def bytesToHex : List Nat → String
  | [] => ""
  | b :: bs => String.mk [hexDigit (b / 16), hexDigit (b % 16)] ++ bytesToHex bs

/-- Character of the base64url alphabet (`A-Z a-z 0-9 - _`) for a 6-bit
value. -/
def b64Char (n : Nat) : Char :=
  if n < 26 then Char.ofNat (65 + n)
  else if n < 52 then Char.ofNat (97 + n - 26)
  else if n < 62 then Char.ofNat (48 + n - 52)
  else if n = 62 then '-' else '_'

/-- Unpadded base64url rendering of a byte list.  Models the source's
`toBase64Url`: standard base64 via `buf.toString("base64")` followed by
replacing `+` with `-`, `/` with `_` and stripping trailing `=`; emitting the
url alphabet directly and omitting the padding is the same function of the
bytes. -/
def toBase64Url : List Nat → String
  | [] => ""
  | [b0] => String.mk [b64Char (b0 / 4), b64Char (b0 % 4 * 16)]
  | [b0, b1] =>
    String.mk [b64Char (b0 / 4), b64Char (b0 % 4 * 16 + b1 / 16), b64Char (b1 % 16 * 4)]
  | b0 :: b1 :: b2 :: rest =>
    String.mk [b64Char (b0 / 4), b64Char (b0 % 4 * 16 + b1 / 16),
      b64Char (b1 % 16 * 4 + b2 / 64), b64Char (b2 % 64)] ++ toBase64Url rest

/-! ## SHA-256 and HMAC-SHA-256

A direct transcription of FIPS 180-4, on `Nat` with explicit reduction
modulo `2 ^ 32`.  Models `crypto.createHash("sha256")` and
`crypto.createHmac("sha256", key)`. -/

/-- Truncation to a 32-bit word. -/
def w32 (x : Nat) : Nat := x % 4294967296

/-- Right rotation of a 32-bit word by `n` bits. -/
def rotr32 (n x : Nat) : Nat := w32 ((x >>> n) ||| (x <<< (32 - n)))

def sigmaBig0 (x : Nat) : Nat := rotr32 2 x ^^^ rotr32 13 x ^^^ rotr32 22 x

def sigmaBig1 (x : Nat) : Nat := rotr32 6 x ^^^ rotr32 11 x ^^^ rotr32 25 x

def sigmaSmall0 (x : Nat) : Nat := rotr32 7 x ^^^ rotr32 18 x ^^^ (x >>> 3)

def sigmaSmall1 (x : Nat) : Nat := rotr32 17 x ^^^ rotr32 19 x ^^^ (x >>> 10)

def chFn (x y z : Nat) : Nat := (x &&& y) ^^^ ((x ^^^ 4294967295) &&& z)

def majFn (x y z : Nat) : Nat := (x &&& y) ^^^ (x &&& z) ^^^ (y &&& z)

/-- The SHA-256 round constants. -/
def k256 : List Nat :=
  [1116352408, 1899447441, 3049323471, 3921009573, 961987163, 1508970993,
   2453635748, 2870763221, 3624381080, 310598401, 607225278, 1426881987,
   1925078388, 2162078206, 2614888103, 3248222580, 3835390401, 4022224774,
   264347078, 604807628, 770255983, 1249150122, 1555081692, 1996064986,
   2554220882, 2821834349, 2952996808, 3210313671, 3336571891, 3584528711,
   113926993, 338241895, 666307205, 773529912, 1294757372, 1396182291,
   1695183700, 1986661051, 2177026350, 2456956037, 2730485921, 2820302411,
   3259730800, 3345764771, 3516065817, 3600352804, 4094571909, 275423344,
   430227734, 506948616, 659060556, 883997877, 958139571, 1322822218,
   1537002063, 1747873779, 1955562222, 2024104815, 2227730452, 2361852424,
   2428436474, 2756734187, 3204031479, 3329325298]

/-- The initial SHA-256 hash state. -/
def sha256Init : List Nat :=
  [0x6a09e667, 0xbb67ae85, 0x3c6ef372, 0xa54ff53a, 0x510e527f, 0x9b05688c, 0x1f83d9ab, 0x5be0cd19]

/-- Big-endian 32-bit words from a byte list (length a multiple of 4). -/
def bytesToWords : List Nat → List Nat
  | b0 :: b1 :: b2 :: b3 :: rest =>
    (((b0 * 256 + b1) * 256 + b2) * 256 + b3) :: bytesToWords rest
  | _ => []

/-- Next message-schedule word from the window of the previous sixteen. -/
def scheduleStep (win : List Nat) : Nat :=
  match win with
  | w0 :: w1 :: _ :: _ :: _ :: _ :: _ :: _ :: _ :: w9 :: _ :: _ :: _ :: _ :: w14 :: _ =>
    w32 (sigmaSmall1 w14 + w9 + sigmaSmall0 w1 + w0)
  | _ => 0

/-- Generate `n` further schedule words from a sliding window. -/
def genW : Nat → List Nat → List Nat
  | 0, _ => []
  | n + 1, win =>
    let x := scheduleStep win
    x :: genW n (win.tail ++ [x])

/-- One SHA-256 round: rotate the eight-word state. -/
def sha256Round (st : List Nat) (kw : Nat × Nat) : List Nat :=
  match st with
  | [a, b, c, d, e, f, g, h] =>
    let t1 := w32 (h + sigmaBig1 e + chFn e f g + kw.1 + kw.2)
    let t2 := w32 (sigmaBig0 a + majFn a b c)
    [w32 (t1 + t2), a, b, c, w32 (d + t1), e, f, g]
  | other => other

/-- Compression of one 16-word block into the hash state. -/
def sha256Compress (h : List Nat) (block : List Nat) : List Nat :=
  let w := block ++ genW 48 block
  let st := (k256.zip w).foldl sha256Round h
  List.zipWith (fun x y => w32 (x + y)) h st

/-- Big-endian bytes of a value, `n` bytes wide. -/
def beBytes : Nat → Nat → List Nat
  | 0, _ => []
  | n + 1, v => v / 256 ^ n % 256 :: beBytes n v

/-- SHA-256 padding: `0x80`, zeros to 56 mod 64, and the bit length. -/
def padMessage (msg : List Nat) : List Nat :=
  let L := msg.length
  msg ++ [128] ++ List.replicate ((119 - L % 64) % 64) 0 ++ beBytes 8 (8 * L)

/-- Split a list into chunks of 64, with an explicit fuel argument so the
recursion is structural. -/
def chunks64 : Nat → List Nat → List (List Nat)
  | 0, _ => []
  | _, [] => []
  | n + 1, l => l.take 64 :: chunks64 n (l.drop 64)

/-- SHA-256 of a byte list, as its 32 digest bytes. -/
def sha256 (msg : List Nat) : List Nat :=
  let padded := padMessage msg
  let blocks := (chunks64 padded.length padded).map bytesToWords
  let h := blocks.foldl sha256Compress sha256Init
  h.foldr (fun wrd acc => beBytes 4 wrd ++ acc) []

/-- HMAC-SHA-256 (RFC 2104) with a 64-byte block size. -/
def hmacSha256 (key msg : List Nat) : List Nat :=
  let k0 := if 64 < key.length then sha256 key else key
  let kp := k0 ++ List.replicate (64 - k0.length) 0
  sha256 (kp.map (fun b => b ^^^ 92) ++ sha256 (kp.map (fun b => b ^^^ 54) ++ msg))

/-! ## URLSearchParams

`new URLSearchParams(s)` is modelled per the WHATWG URL standard:
a leading `?` is stripped, the rest splits on `&` with empty segments
skipped, each segment splits at its first `=` (absent `=` means empty
value), and both sides are percent-decoded with `+` meaning space.
Percent-decoding is modelled byte-for-char: a valid `%hh` sequence becomes
the character of that byte value, which coincides with the platform for
ASCII payloads (the repertoire this development uses); multi-byte UTF-8
percent sequences are outside the model. -/

/-- Value of a hex digit character, if it is one. -/
def hexVal : Char → Option Nat
  | c =>
    if '0' ≤ c ∧ c ≤ '9' then some (c.toNat - 48)
    else if 'a' ≤ c ∧ c ≤ 'f' then some (c.toNat - 87)
    else if 'A' ≤ c ∧ c ≤ 'F' then some (c.toNat - 55)
    else none

/-- Percent-decoding of one segment (see the section comment above). -/
def percentDecode : List Char → List Char
  | [] => []
  | '%' :: a :: b :: rest =>
    match hexVal a, hexVal b with
    | some x, some y => Char.ofNat (16 * x + y) :: percentDecode rest
    | _, _ => '%' :: percentDecode (a :: b :: rest)
  | '+' :: rest => ' ' :: percentDecode rest
  | c :: rest => c :: percentDecode rest

/-- Split on `&` separators, keeping empty segments (filtered by the caller). -/
def splitSegs : List Char → List (List Char)
  | [] => [[]]
  | '&' :: rest => [] :: splitSegs rest
  | c :: rest =>
    match splitSegs rest with
    | [] => [[c]]
    | s :: ss => (c :: s) :: ss

/-- Split a segment at its first `=`; a segment without `=` has empty value. -/
def splitEq : List Char → List Char × List Char
  | [] => ([], [])
  | '=' :: rest => ([], rest)
  | c :: rest =>
    let (k, v) := splitEq rest
    (c :: k, v)

/-- The entry list of `new URLSearchParams(s)`, in insertion order. -/
def parseQuery (s : String) : List (String × String) :=
  let cs := match s.data with
    | '?' :: rest => rest
    | l => l
  ((splitSegs cs).filter (fun seg => seg ≠ [])).map (fun seg =>
    let (k, v) := splitEq seg
    (String.mk (percentDecode k), String.mk (percentDecode v)))

/-- `params.get(k)`: the value of the first entry with key `k`. -/
def getParam : List (String × String) → String → Option String
  | [], _ => none
  | p :: ps, k => if p.1 = k then some p.2 else getParam ps k

/-- `params.delete(k)`: remove every entry with key `k`. -/
def deleteParam (ps : List (String × String)) (k : String) : List (String × String) :=
  ps.filter (fun p => p.1 ≠ k)

/-! ## localeCompare

The source sorts canonicalization keys with
`a.localeCompare(b)`, the locale-sensitive collation of the platform ICU
(root collation by default).  The model below implements the root collation
restricted to the repertoire this backend ever compares: ASCII letters,
digits, underscore, and the completely ignorable control character `U+0000`.
Per the Unicode Collation Algorithm, strings compare first by the sequence
of primary weights of their non-ignorable characters (underscore before
digits before letters, letter case ignored), then by the case level
(lowercase before uppercase); completely ignorable characters contribute no
weight at any level.  Characters outside the repertoire are given distinct
primary weights above all others (an approximation of their DUCET weights
that keeps the comparator a total preorder). -/

/-- Completely ignorable characters of the model (`U+0000`). -/
def ignorableChar (c : Char) : Bool := c.toNat = 0

/-- Primary collation weight of a character (see the section comment). -/
def primaryWeight (c : Char) : Nat :=
  if c = '_' then 10
  else if '0' ≤ c ∧ c ≤ '9' then 20 + (c.toNat - 48)
  else if 'a' ≤ c ∧ c ≤ 'z' then 40 + (c.toNat - 97)
  else if 'A' ≤ c ∧ c ≤ 'Z' then 40 + (c.toNat - 65)
  else 1000 + c.toNat

/-- Case (tertiary) weight: lowercase before uppercase. -/
def caseWeight (c : Char) : Nat := if 'A' ≤ c ∧ c ≤ 'Z' then 1 else 0

/-- The non-ignorable characters of a string, in order. -/
def collChars (s : String) : List Char := s.data.filter (fun c => ¬ ignorableChar c)

/-- The primary collation key of a string. -/
def collPrimary (s : String) : List Nat := (collChars s).map primaryWeight

/-- The case-level collation key of a string. -/
def collCase (s : String) : List Nat := (collChars s).map caseWeight

/-- Models `a.localeCompare(b)` (sign only; see the section comment). -/
def localeCompare (a b : String) : Ordering :=
  match natListCmp (collPrimary a) (collPrimary b) with
  | .eq => natListCmp (collCase a) (collCase b)
  | o => o

/-- The sort relation of `pairs.sort((a, b) => a[0].localeCompare(b[0]))`:
entry `p` may precede entry `q` when the comparator does not order `q`
strictly first. -/
def pairLe (p q : String × String) : Prop := localeCompare p.1 q.1 ≠ .gt

instance : DecidableRel pairLe := fun p q =>
  inferInstanceAs (Decidable (localeCompare p.1 q.1 ≠ .gt))

/-! ## Number()

`Number(s)` on a string, modelled exactly on trimmed decimal literals
(optional sign, integer and fraction digits, optional decimal exponent) and
on hex, octal and binary literals; the empty string is `0`.  A finite
JavaScript number is modelled as an exact fraction `JsRat` (numerator and
positive denominator, not necessarily reduced — the code never tests
numbers for equality, it only subtracts and compares, which the fraction
supports exactly).  The result type is `Option JsRat` with `none` standing
for a non-finite result (`NaN` or an infinity): every use in the source
immediately gates on `Number.isFinite` or stores the value, and the claims
never distinguish `NaN` from an infinity, so `Infinity` literals map to
`none`, and so does any literal whose magnitude is at least
`2 ^ 1024 - 2 ^ 970`, the round-to-nearest threshold past which `Number()`
saturates to `±Infinity`.  Below that threshold the model keeps the exact
value where a JavaScript double would round to 53 bits of precision;
theorems whose truth depends on the comparison (the expiry check) therefore
restrict themselves to integer values within `2 ^ 53`, where the double is
exact. -/

/-- A finite JavaScript number as an exact fraction. -/
structure JsRat where
  num : Int
  den : Nat
deriving DecidableEq, Repr

/-- The integer `n` as a `JsRat`. -/
def jsRatOfInt (n : Int) : JsRat := ⟨n, 1⟩

/-- Exact subtraction of fractions. -/
def jsSub (a b : JsRat) : JsRat :=
  ⟨a.num * (b.den : Int) - b.num * (a.den : Int), a.den * b.den⟩

/-- Exact comparison `a > b` of fractions (positive denominators). -/
def jsGt (a b : JsRat) : Bool :=
  b.num * (a.den : Int) < a.num * (b.den : Int)

/-- Numeric value of a digit list (base 10). -/
def natOfDigits (ds : List Char) : Nat :=
  ds.foldl (fun a c => 10 * a + (c.toNat - 48)) 0

/-- Hex/octal/binary digits, accumulated left to right. -/
def natOfBaseAux (base : Nat) (acc : Nat) : List Char → Option Nat
  | [] => some acc
  | c :: cs =>
    match hexVal c with
    | some v => if v < base then natOfBaseAux base (base * acc + v) cs else none
    | none => none

/-- Unsigned decimal literal with optional fraction and exponent, as the
exact fraction
`(ip.fp) * 10 ^ (±exp) = ip·10^|fp| + fp over 10^|fp|, scaled by the
exponent`. -/
def parseDec (cs : List Char) : Option JsRat :=
  let (ip, rest1) := cs.span (fun c => c.isDigit)
  let (fp, rest2) :=
    match rest1 with
    | '.' :: r =>
      let (f, r2) := r.span (fun c => c.isDigit)
      (some f, r2)
    | _ => (none, rest1)
  if ip = [] ∧ (fp = none ∨ fp = some []) then none
  else
    let flen := (fp.getD []).length
    let mant : JsRat :=
      ⟨(natOfDigits ip * 10 ^ flen + natOfDigits (fp.getD []) : Nat), 10 ^ flen⟩
    match rest2 with
    | [] => some mant
    | e :: r3 =>
      if e = 'e' ∨ e = 'E' then
        let (neg, r4) :=
          match r3 with
          | '+' :: t => (false, t)
          | '-' :: t => (true, t)
          | t => (false, t)
        if r4 ≠ [] ∧ r4.all (fun c => c.isDigit) then
          some (if neg then ⟨mant.num, mant.den * 10 ^ natOfDigits r4⟩
                else ⟨mant.num * (10 ^ natOfDigits r4 : Nat), mant.den⟩)
        else none
      else none

/-- Unsigned numeric literal: decimal or the `Infinity` literal (which is
non-finite, hence `none`). -/
def parseDecOrInf (cs : List Char) : Option JsRat :=
  if cs = "Infinity".data then none else parseDec cs

/-- Signed numeric literal. -/
def parseSigned : List Char → Option JsRat
  | '+' :: r => parseDecOrInf r
  | '-' :: r => (parseDecOrInf r).map (fun q => ⟨-q.num, q.den⟩)
  | r => parseDecOrInf r

/-- The magnitude at which `Number()` overflows to `Infinity`: the midpoint
between the largest finite double `(2^53 - 1) * 2^971` and `2^1024`, which
round-to-nearest-ties-even sends to `Infinity` (the even neighbour). -/
def jsOverflow : Nat := Nat.pow 2 1024 - Nat.pow 2 970

/-- The exact rational value of a numeric string, before the finite-double
range gate of `Number()`. -/
def jsNumberExact (s : String) : Option JsRat :=
  match (jsTrim s).data with
  | [] => some ⟨0, 1⟩
  | '0' :: 'x' :: rest =>
    (natOfBaseAux 16 0 rest).bind (fun n => if rest = [] then none else some ⟨n, 1⟩)
  | '0' :: 'X' :: rest =>
    (natOfBaseAux 16 0 rest).bind (fun n => if rest = [] then none else some ⟨n, 1⟩)
  | '0' :: 'o' :: rest =>
    (natOfBaseAux 8 0 rest).bind (fun n => if rest = [] then none else some ⟨n, 1⟩)
  | '0' :: 'O' :: rest =>
    (natOfBaseAux 8 0 rest).bind (fun n => if rest = [] then none else some ⟨n, 1⟩)
  | '0' :: 'b' :: rest =>
    (natOfBaseAux 2 0 rest).bind (fun n => if rest = [] then none else some ⟨n, 1⟩)
  | '0' :: 'B' :: rest =>
    (natOfBaseAux 2 0 rest).bind (fun n => if rest = [] then none else some ⟨n, 1⟩)
  | cs => parseSigned cs

/-- Models `Number(s)` for a string (see the section comment); `none` means
the result is not a finite number, either because the literal is malformed
(`NaN`), an `Infinity` literal, or a value whose magnitude saturates the
double range to `±Infinity`. -/
def jsNumber (s : String) : Option JsRat :=
  (jsNumberExact s).bind (fun q => if jsOverflow * q.den ≤ q.num.natAbs then none else some q)

/-! ## Timing-safe comparison -/

/-- Models `crypto.timingSafeEqual(a, b)` on byte buffers: equality of the
bytes, or a thrown `RangeError` when the lengths differ.  Timing is outside a
functional model; the value/exception behaviour is what the source observes. -/
def timingSafeEqual (a b : List Nat) : Except String Bool :=
  if a.length = b.length then .ok (a == b)
  else .error "Input buffers must have the same byte length"

/-- The body of the source's `safeEq` before its `try`/`catch`:
build the two buffers, return `false` on a length mismatch, otherwise defer
to `timingSafeEqual` (which may throw). -/
def safeEqBody (a b : String) : Except String Bool :=
  let ab := utf8Str a
  let bb := utf8Str b
  if ab.length ≠ bb.length then .ok false
  else timingSafeEqual ab bb

/-- The source's `safeEq(a, b)`: the body with every thrown error caught and
turned into `false`. -/
def safeEq (a b : String) : Bool :=
  match safeEqBody a b with
  | .ok r => r
  | .error _ => false

/-! ## verifyTelegramInitData -/

/-- Result of the verifier.  The source returns an object
`\x7b ok, reason?, debug? \x7d`; the bounded debug previews carry no
information the claims mention and are omitted from the model. -/
inductive VerifyResult where
  | ok : VerifyResult
  | err (reason : String) : VerifyResult
deriving DecidableEq, Repr

/-- The expiry test of the verifier: an `auth_date` entry is present and
truthy (non-empty), parses to a finite number, and is older than
`maxAgeSec` relative to `now` (seconds). -/
def authDateExpired (params : List (String × String)) (now maxAgeSec : Int) : Bool :=
  match getParam params "auth_date" with
  | none => false
  | some s =>
    if s = "" then false
    else
      match jsNumber s with
      | some a => jsGt (jsSub (jsRatOfInt now) a) (jsRatOfInt maxAgeSec)
      | none => false

/-- The entries of the canonical message: parse, drop `hash`, sort by
`localeCompare` on keys with the stable ECMAScript `Array.prototype.sort`,
modelled by the stable `List.insertionSort`. -/
def canonicalPairs (initData : String) : List (String × String) :=
  List.insertionSort pairLe (deleteParam (parseQuery initData) "hash")

/-- `lines.join("\n")`. -/
def joinNewline : List String → String
  | [] => ""
  | [x] => x
  | x :: xs => x ++ "\n" ++ joinNewline xs

/-- The data-check string: sorted `key=value` lines joined by newlines. -/
def dataCheckString (initData : String) : String :=
  joinNewline ((canonicalPairs initData).map (fun p => p.1 ++ "=" ++ p.2))

/-- The HMAC-SHA-256 of the data-check string under
`secret_key = sha256(botToken.trim())`. -/
def computedHmac (initData botToken : String) : List Nat :=
  hmacSha256 (sha256 (utf8Str (jsTrim botToken))) (utf8Str (dataCheckString initData))

/-- The lowercase hex rendering of the computed MAC. -/
def computedHex (initData botToken : String) : String :=
  bytesToHex (computedHmac initData botToken)

/-- The unpadded base64url rendering of the computed MAC. -/
def computedB64Url (initData botToken : String) : String :=
  toBase64Url (computedHmac initData botToken)

/-- The source's `verifyTelegramInitData(initData, botToken, maxAgeSec)`.
`now` is `Math.floor(Date.now() / 1000)` passed explicitly; the source
defaults `maxAgeSec` to `24 * 60 * 60 = 86400`.  JavaScript-level
type checks (`typeof initData !== "string"`) are outside a typed model;
the falsiness checks on strings are the `= ""` tests. -/
def verifyTelegramInitData (initData botToken : String) (now maxAgeSec : Int) : VerifyResult :=
  if initData = "" then .err "empty_initData"
  else if botToken = "" then .err "empty_botToken"
  else
    let params := parseQuery initData
    match getParam params "hash" with
    | none => .err "no_hash"
    | some hash =>
      if hash = "" then .err "no_hash"
      else
      let params := deleteParam params "hash"
      if authDateExpired params now maxAgeSec then .err "auth_date_expired"
      else
        let incoming := jsTrim hash
        let incomingLower := jsToLower incoming
        if safeEq (computedHex initData botToken) incomingLower
            || safeEq (computedB64Url initData botToken) incoming
            || safeEq (computedB64Url initData botToken) incomingLower
        then .ok
        else .err "hash_mismatch"

/-! ## The auth gate -/

/-- The fields of the parsed `user` JSON that the backend reads.  `JSON.parse`
itself is a platform function; the gate consumes it only through a parser
argument `parse : String → Option TgUser`, where `none` models both a thrown
parse error (caught and turned into `null` by the source) and an absent
`user` field.  A non-object or id-less parse result is indistinguishable to
the source from a falsy id and is modelled by `id = 0`. -/
structure TgUser where
  id : Int
  username : Option String
  first_name : Option String
deriving DecidableEq, Repr

/-- The source's `getTelegramUserFromInitData`: the `user` entry parsed as
JSON, or `null`. -/
def getTelegramUserFromInitData (parse : String → Option TgUser) (initData : String) :
    Option TgUser :=
  (getParam (parseQuery initData) "user").bind parse

/-- Result of the `requireUser` middleware: either the bound
`req.telegramId` or the 401 error message sent. -/
inductive AuthResult where
  | ok (telegramId : Int) : AuthResult
  | unauthorized (error : String) : AuthResult
deriving DecidableEq, Repr

/-- The source's `requireUser` middleware.  `header` is
`req.headers["x-telegram-initdata"]` (`none` when absent); the verifier is
called with the configured bot token and the default max age of 86400
seconds.  On success the principal's numeric id is bound as the tenant key
for the downstream handlers. -/
def requireUser (parse : String → Option TgUser) (header : Option String)
    (botToken : String) (now : Int) : AuthResult :=
  match header with
  | none => .unauthorized "x-telegram-initdata header required"
  | some initData =>
    if initData = "" then .unauthorized "x-telegram-initdata header required"
    else
      match verifyTelegramInitData initData botToken now 86400 with
      | .err _ => .unauthorized "Invalid initData"
      | .ok =>
        match getTelegramUserFromInitData parse initData with
        | none => .unauthorized "No user"
        | some u => if u.id = 0 then .unauthorized "No user" else .ok u.id

/-! ## The store model

The Supabase tables `workouts`, `workout_exercises` and `workout_sets` are
modelled as row lists in insertion order, with a shared id counter: the
store generates fresh row ids, modelled as the integers `nextId`,
`nextId + 1`, …  The uuid ids of the real store are opaque tokens the
backend only compares for equality and feeds back into filters; integers
model them faithfully, and the all-zeros uuid sentinel of the read path —
which the id generator never produces — is modelled as `-1`, which the
generator (non-negative ids) never produces either.

Each handler takes a failure schedule giving, for each store call it can
make, the error the store returns there (`none` for success).  A failed
call is a single PostgREST statement, hence atomic: it leaves the store
unchanged and yields `data = null`. -/

structure WorkoutRow where
  id : Int
  user_id : Int
  workout_date : String
  title : Option String
  notes : Option String
deriving DecidableEq, Repr

structure ExerciseRow where
  id : Int
  workout_id : Int
  name : String
  position : Int
deriving DecidableEq, Repr

structure SetRow where
  id : Int
  exercise_id : Int
  set_no : Int
  reps : Option JsRat
  weight_kg : Option JsRat
deriving DecidableEq, Repr

structure Store where
  workouts : List WorkoutRow
  exercises : List ExerciseRow
  sets : List SetRow
  nextId : Int
deriving DecidableEq, Repr

/-- The store invariants the relational schema enforces: row ids are
pairwise distinct and drawn from the already-generated range
`[0, nextId)`, at most one workout exists per `(user_id, workout_date)`
(the upsert conflict target), and child rows reference existing parents. -/
def WF (st : Store) : Prop :=
  0 ≤ st.nextId ∧
  (∀ w ∈ st.workouts, 0 ≤ w.id ∧ w.id < st.nextId) ∧
  (∀ e ∈ st.exercises, 0 ≤ e.id ∧ e.id < st.nextId) ∧
  (∀ s ∈ st.sets, 0 ≤ s.id ∧ s.id < st.nextId) ∧
  (st.workouts.map (fun w => w.id)).Nodup ∧
  (st.exercises.map (fun e => e.id)).Nodup ∧
  (st.sets.map (fun s => s.id)).Nodup ∧
  (st.workouts.map (fun w => (w.user_id, w.workout_date))).Nodup ∧
  (∀ e ∈ st.exercises, ∃ w ∈ st.workouts, w.id = e.workout_id) ∧
  (∀ s ∈ st.sets, ∃ e ∈ st.exercises, e.id = s.exercise_id)

instance (st : Store) : Decidable (WF st) := by
  unfold WF
  infer_instance

/-- The sentinel id of the read path (`00000000-0000-0000-0000-000000000000`
in the source), a value the id generator never produces. -/
def sentinelId : Int := -1

/-! ## GET /api/workouts -/

/-- Failure schedule for the three store calls of the read handler. -/
structure GetSched where
  wErr : Option String
  exErr : Option String
  sErr : Option String
deriving Repr

/-- The all-success schedule for the read handler. -/
def noGetFail : GetSched := ⟨none, none, none⟩

/-- One exercise of the response, with its grouped sets. -/
structure ExerciseView where
  id : Int
  name : String
  position : Int
  sets : List SetRow
deriving DecidableEq, Repr

/-- The nested JSON the read handler responds with. -/
structure WorkoutView where
  id : Int
  user_id : Int
  workout_date : String
  title : Option String
  notes : Option String
  exercises : List ExerciseView
deriving DecidableEq, Repr

/-- Response of the read handler. -/
inductive GetResult where
  | badRequest (error : String) : GetResult
  | storeError (error : String) : GetResult
  | jsonNull : GetResult
  | jsonView (v : WorkoutView) : GetResult
deriving DecidableEq, Repr

/-- Order used by `.order("position")`. -/
def posLe (a b : ExerciseRow) : Prop := a.position ≤ b.position

instance : DecidableRel posLe := fun a b => inferInstanceAs (Decidable (a.position ≤ b.position))

/-- Order used by `.order("set_no")`. -/
def setNoLe (a b : SetRow) : Prop := a.set_no ≤ b.set_no

instance : DecidableRel setNoLe := fun a b => inferInstanceAs (Decidable (a.set_no ≤ b.set_no))

/-- The workout rows matching `(user_id, workout_date)`. -/
def findWorkouts (st : Store) (uid : Int) (d : String) : List WorkoutRow :=
  st.workouts.filter (fun w => w.user_id == uid && w.workout_date == d)

/-- One step of building the `byExercise` JS `Map`: push a set row onto its
exercise's group, keeping the insertion order of keys (an existing key is
updated in place, a new key appended). -/
def pushGroup (m : List (Int × List SetRow)) (s : SetRow) : List (Int × List SetRow) :=
  match m with
  | [] => [(s.exercise_id, [s])]
  | (k, v) :: rest =>
    if k = s.exercise_id then (k, v ++ [s]) :: rest
    else (k, v) :: pushGroup rest s

/-- The `byExercise` map of the read handler. -/
def groupSets (sets : List SetRow) : List (Int × List SetRow) :=
  sets.foldl pushGroup []

/-- `byExercise.get(k) ?? []`. -/
def lookupGroup (m : List (Int × List SetRow)) (k : Int) : List SetRow :=
  match m with
  | [] => []
  | (k', v) :: rest => if k' = k then v else lookupGroup rest k

/-- The set query of the read handler: rows whose `exercise_id` is in the
given id list (the sentinel when the exercise list is empty), ordered by
`set_no`. -/
def querySets (st : Store) (qIds : List Int) : List SetRow :=
  List.insertionSort setNoLe (st.sets.filter (fun s => qIds.contains s.exercise_id))

/-- The source's GET `/api/workouts` handler body, after `requireUser` bound
`uid`.  `date` is `req.query.date` (`none` when absent).  The
`.maybeSingle()` call yields the row when at most one matches and a store
error when several do. -/
def getWorkouts (sch : GetSched) (uid : Int) (date : Option String) (st : Store) : GetResult :=
  match date with
  | none => .badRequest "date=YYYY-MM-DD required"
  | some d =>
    if d = "" then .badRequest "date=YYYY-MM-DD required"
    else
      match sch.wErr with
      | some e => .storeError e
      | none =>
        match findWorkouts st uid d with
        | [] => .jsonNull
        | [w] =>
          match sch.exErr with
          | some e => .storeError e
          | none =>
            let ex := List.insertionSort posLe
              (st.exercises.filter (fun e => e.workout_id == w.id))
            match sch.sErr with
            | some e => .storeError e
            | none =>
              let exIds := ex.map (fun e => e.id)
              let sets := querySets st (if exIds = [] then [sentinelId] else exIds)
              let groups := groupSets sets
              .jsonView ⟨w.id, w.user_id, w.workout_date, w.title, w.notes,
                ex.map (fun e => ⟨e.id, e.name, e.position, lookupGroup groups e.id⟩)⟩
        | _ => .storeError "Results contain 2 or more rows"

/-! ## POST /api/workouts -/

/-- A JSON value in a request body set entry, as far as the handler
inspects it: `undefined` (absent), `null`, boolean, number or string.
Nested arrays/objects in `reps`/`weight_kg` coerce through `Number` like
strings do and are not needed by the claims. -/
inductive JsVal where
  | undef : JsVal
  | null : JsVal
  | bool (b : Bool) : JsVal
  | num (q : JsRat) : JsVal
  | str (s : String) : JsVal
deriving DecidableEq, Repr

/-- `Number(v ?? 0)`: the coercion the handler applies to `reps` and
`weight_kg`.  `none` is a non-finite result (`NaN`, or an infinity for an
overflowing literal). -/
def jsCoerce (v : JsVal) : Option JsRat :=
  match v with
  | .undef => some ⟨0, 1⟩
  | .null => some ⟨0, 1⟩
  | .bool b => some (if b then ⟨1, 1⟩ else ⟨0, 1⟩)
  | .num q => some q
  | .str s => jsNumber s

/-- One set entry of the request body. -/
structure InputSet where
  reps : JsVal
  weight_kg : JsVal
deriving DecidableEq, Repr

/-- One exercise of the request body; `sets = none` models a missing or
non-array `sets` field (`Array.isArray` fails, the handler substitutes
`[]`). -/
structure InputExercise where
  name : String
  sets : Option (List InputSet)
deriving DecidableEq, Repr

/-- The request body of the replace handler; `exercises = none` models a
missing or non-array `exercises` field, and an absent or empty
`workout_date` is the falsy empty string. -/
structure PostBody where
  workout_date : String
  title : Option String
  notes : Option String
  exercises : Option (List InputExercise)
deriving DecidableEq, Repr

/-- Response of the replace handler (`created` is
`res.json(\x7b ok: true, workout_id \x7d)`). -/
inductive PostResult where
  | badRequest (error : String) : PostResult
  | storeError (error : String) : PostResult
  | created (workout_id : Int) : PostResult
deriving DecidableEq, Repr

/-- Failure schedule for the six store calls of the replace handler, in
source order: workout upsert, old-exercise fetch, set delete, exercise
delete, exercise insert, set insert. -/
structure PostSched where
  upErr : Option String
  fetchErr : Option String
  delSetsErr : Option String
  delExErr : Option String
  insExErr : Option String
  insSetsErr : Option String
deriving Repr

/-- The all-success schedule for the replace handler. -/
def noPostFail : PostSched := ⟨none, none, none, none, none, none⟩

/-- The `workouts` upsert with conflict target `(user_id, workout_date)`:
update `title`/`notes` of the conflicting row in place, or insert a fresh
row; return the resulting row (the `.select().single()` of the source). -/
def upsertWorkout (uid : Int) (d : String) (title notes : Option String) (st : Store) :
    WorkoutRow × Store :=
  match st.workouts.find? (fun w => w.user_id == uid && w.workout_date == d) with
  | some w =>
    let w' : WorkoutRow := ⟨w.id, w.user_id, w.workout_date, title, notes⟩
    (w', { st with workouts := st.workouts.map (fun x =>
        if x.user_id == uid && x.workout_date == d then w' else x) })
  | none =>
    let w : WorkoutRow := ⟨st.nextId, uid, d, title, notes⟩
    (w, { st with workouts := st.workouts ++ [w], nextId := st.nextId + 1 })

/-- Insert the exercise rows built by the handler (`workout_id`, `name`,
`position = idx + 1`), returning the created rows in insertion order —
the `.insert(exRows).select()` of the source. -/
def insertExercisesFrom (wid : Int) (pos : Int) :
    List InputExercise → Store → List ExerciseRow × Store
  | [], st => ([], st)
  | e :: es, st =>
    let row : ExerciseRow := ⟨st.nextId, wid, e.name, pos⟩
    let st1 : Store := { st with exercises := st.exercises ++ [row], nextId := st.nextId + 1 }
    let res := insertExercisesFrom wid (pos + 1) es st1
    (row :: res.1, res.2)

/-- A set row as the handler builds it, before the store assigns an id. -/
structure NewSetRow where
  exercise_id : Int
  set_no : Int
  reps : Option JsRat
  weight_kg : Option JsRat
deriving DecidableEq, Repr

/-- The set rows of one exercise, numbered from `n`. -/
def numberSets (exId : Int) (n : Int) : List InputSet → List NewSetRow
  | [] => []
  | s :: ss => ⟨exId, n, jsCoerce s.reps, jsCoerce s.weight_kg⟩ :: numberSets exId (n + 1) ss

/-- The `setRows` array of the handler: for the i-th input exercise, its
sets numbered from 1 against the id of the i-th inserted exercise row. -/
def setRowsFor : List (InputExercise × ExerciseRow) → List NewSetRow
  | [] => []
  | (e, r) :: rest => numberSets r.id 1 (e.sets.getD []) ++ setRowsFor rest

/-- Insert the built set rows, the store assigning fresh ids. -/
def insertSets : List NewSetRow → Store → Store
  | [], st => st
  | r :: rs, st =>
    insertSets rs { st with
      sets := st.sets ++ [⟨st.nextId, r.exercise_id, r.set_no, r.reps, r.weight_kg⟩],
      nextId := st.nextId + 1 }

/-- The source's POST `/api/workouts` handler body, after `requireUser`
bound `uid`.  The six store calls happen in source order; the results of
the old-exercise fetch and of the two deletes are not error-checked by the
source: a failed fetch yields `data = null`, so `oldIds` becomes `[]`, and
a failed delete just leaves the rows in place, the handler continuing
either way. -/
def postWorkouts (sch : PostSched) (uid : Int) (body : PostBody) (st : Store) :
    PostResult × Store :=
  if body.workout_date = "" then (.badRequest "workout_date required", st)
  else
    match body.exercises with
    | none => (.badRequest "exercises[] required", st)
    | some exs =>
      match sch.upErr with
      | some e => (.storeError e, st)
      | none =>
        let wr := upsertWorkout uid body.workout_date body.title body.notes st
        let w := wr.1
        let st1 := wr.2
        let oldIds : List Int :=
          match sch.fetchErr with
          | some _ => []
          | none => (st1.exercises.filter (fun e => e.workout_id == w.id)).map (fun e => e.id)
        let st2 : Store :=
          if oldIds.isEmpty then st1
          else
            match sch.delSetsErr with
            | some _ => st1
            | none => { st1 with
                sets := st1.sets.filter (fun s => ¬ oldIds.contains s.exercise_id) }
        let st3 : Store :=
          match sch.delExErr with
          | some _ => st2
          | none => { st2 with
              exercises := st2.exercises.filter (fun e => ¬ (e.workout_id == w.id)) }
        match sch.insExErr with
        | some e => (.storeError e, st3)
        | none =>
          let ir := insertExercisesFrom w.id 1 exs st3
          let insertedEx := ir.1
          let st4 := ir.2
          let setRows := setRowsFor (exs.zip insertedEx)
          if setRows.isEmpty then (.created w.id, st4)
          else
            match sch.insSetsErr with
            | some e => (.storeError e, st4)
            | none => (.created w.id, insertSets setRows st4)

/-! ## Statement-level predicates -/

/-- `(name, position)` pairs of an input exercise list, positions counted
from `n`. -/
def posNumbered (n : Int) : List InputExercise → List (String × Int)
  | [] => []
  | e :: es => (e.name, n) :: posNumbered (n + 1) es

/-- `(set_no, reps, weight_kg)` triples of an input set list, numbers
counted from `n`, values as the handler coerces them. -/
def setTriples (n : Int) : List InputSet → List (Int × Option JsRat × Option JsRat)
  | [] => []
  | s :: ss => (n, jsCoerce s.reps, jsCoerce s.weight_kg) :: setTriples (n + 1) ss

/-- The store content a successful replace of `exs` must leave for workout
`wid`: its exercise rows are exactly the inputs in order with dense 1-based
positions, and the set rows of its i-th exercise are exactly the i-th input
sets in order with dense 1-based set numbers and the coerced values. -/
def ReplaceSpec (exs : List InputExercise) (st : Store) (wid : Int) : Prop :=
  let cur := st.exercises.filter (fun e => e.workout_id == wid)
  cur.map (fun e => (e.name, e.position)) = posNumbered 1 exs ∧
  List.Forall₂ (fun (e : ExerciseRow) (ex : InputExercise) =>
    (st.sets.filter (fun s => s.exercise_id == e.id)).map
        (fun s => (s.set_no, s.reps, s.weight_kg))
      = setTriples 1 (ex.sets.getD [])) cur exs

/-- An exercise row owned, through its workout, by some user other than
`uid`, judged against the workouts of `st`. -/
def ForeignEx (st : Store) (uid : Int) (e : ExerciseRow) : Prop :=
  ∃ w ∈ st.workouts, w.id = e.workout_id ∧ w.user_id ≠ uid

/-- A set row owned, through its exercise and workout, by some user other
than `uid`, judged against `st`. -/
def ForeignSet (st : Store) (uid : Int) (s : SetRow) : Prop :=
  ∃ e ∈ st.exercises, e.id = s.exercise_id ∧ ForeignEx st uid e

/-- Tenant-isolation frame conditions for a state transition of the
replace handler run for `uid`: workout rows of other users are untouched,
exercise and set rows foreign to `uid` all survive, and no row the call
creates is foreign to `uid`. -/
def PostFrame (st st' : Store) (uid : Int) : Prop :=
  (∀ w : WorkoutRow, w.user_id ≠ uid → (w ∈ st'.workouts ↔ w ∈ st.workouts)) ∧
  (∀ e ∈ st.exercises, ForeignEx st uid e → e ∈ st'.exercises) ∧
  (∀ e ∈ st'.exercises, e ∉ st.exercises → ¬ ForeignEx st' uid e) ∧
  (∀ s ∈ st.sets, ForeignSet st uid s → s ∈ st'.sets) ∧
  (∀ s ∈ st'.sets, s ∉ st.sets → ¬ ForeignSet st' uid s)

/-! ## Basic lemmas -/

theorem char_eq_of_toNat_eq {c d : Char} (h : c.toNat = d.toNat) : c = d := by
  apply Char.eq_of_val_eq
  apply UInt32.eq_of_toBitVec_eq
  have hn : c.val.toNat = d.val.toNat := h
  exact BitVec.eq_of_toNat_eq hn

theorem deleteParam_cons (p : String × String) (ps : List (String × String)) (k : String) :
    deleteParam (p :: ps) k =
      if p.1 = k then deleteParam ps k else p :: deleteParam ps k := by
  by_cases hp : p.1 = k <;> simp [deleteParam, List.filter_cons, hp]

theorem getParam_deleteParam_ne (ps : List (String × String)) (k k' : String)
    (h : k' ≠ k) : getParam (deleteParam ps k) k' = getParam ps k' := by
  induction ps with
  | nil => rfl
  | cons p ps ih =>
    rw [deleteParam_cons]
    by_cases hp : p.1 = k
    · rw [if_pos hp]
      have hpk : ¬ p.1 = k' := fun hc => h (by rw [← hc]; exact hp)
      simp [getParam, hpk, ih]
    · rw [if_neg hp]
      simp [getParam, ih]

theorem parseQuery_empty : parseQuery "" = [] := by decide

theorem authDateExpired_true (params : List (String × String)) (now maxAgeSec : Int)
    (s : String) (a : JsRat) (hauth : getParam params "auth_date" = some s)
    (hs : s ≠ "") (hnum : jsNumber s = some a)
    (hexp : jsGt (jsSub (jsRatOfInt now) a) (jsRatOfInt maxAgeSec) = true) :
    authDateExpired params now maxAgeSec = true := by
  unfold authDateExpired
  simp only [hauth, if_neg hs, hnum]
  exact hexp

theorem authDateExpired_false_of_malformed (params : List (String × String))
    (now maxAgeSec : Int) (s : String) (hauth : getParam params "auth_date" = some s)
    (hbad : s = "" ∨ jsNumber s = none) :
    authDateExpired params now maxAgeSec = false := by
  unfold authDateExpired
  rcases hbad with h | h
  · simp only [hauth, if_pos h]
  · by_cases hs : s = ""
    · simp only [hauth, if_pos hs]
    · simp only [hauth, if_neg hs, h]

/-- With the expiry check not firing, the verifier is the empty checks, the
hash lookup and the comparison — in particular it no longer depends on
`now` or `maxAgeSec`. -/
theorem verify_shape_of_not_expired (initData botToken : String) (now maxAgeSec : Int)
    (hexp : authDateExpired (deleteParam (parseQuery initData) "hash") now maxAgeSec = false) :
    verifyTelegramInitData initData botToken now maxAgeSec =
      if initData = "" then .err "empty_initData"
      else if botToken = "" then .err "empty_botToken"
      else
        match getParam (parseQuery initData) "hash" with
        | none => .err "no_hash"
        | some h =>
          if h = "" then .err "no_hash"
          else if safeEq (computedHex initData botToken) (jsToLower (jsTrim h))
              || safeEq (computedB64Url initData botToken) (jsTrim h)
              || safeEq (computedB64Url initData botToken) (jsToLower (jsTrim h))
          then .ok
          else .err "hash_mismatch" := by
  unfold verifyTelegramInitData
  by_cases h1 : initData = ""
  · simp [h1]
  · by_cases h2 : botToken = ""
    · simp [h1, h2]
    · simp only [if_neg h1, if_neg h2]
      cases hg : getParam (parseQuery initData) "hash" with
      | none => rfl
      | some h =>
        by_cases hh0 : h = ""
        · simp [hh0]
        · simp [hh0, hexp]

/-- Claim C3: for initData that reaches the expiry check (non-empty initData
and bot token, a present non-empty `hash` field) and carries an `auth_date`
whose non-empty value denotes the integer `a` exactly, with `a`, `now`,
`now - a` and `maxAgeSec` all within the exactly-representable double range
`2 ^ 53` (every realistic Unix timestamp is) and `now - a > maxAgeSec`, the
verifier fails with `auth_date_expired` regardless of the hash value — even
an otherwise valid signature is rejected.  The source defaults `maxAgeSec`
to 86400. -/
theorem c3_auth_date_expired (initData botToken : String) (now maxAgeSec : Int)
    (s h : String) (a : Int)
    (htok : botToken ≠ "")
    (hh : getParam (parseQuery initData) "hash" = some h) (hh0 : h ≠ "")
    (hauth : getParam (parseQuery initData) "auth_date" = some s)
    (hs : s ≠ "") (hnum : jsNumber s = some ⟨a, 1⟩)
    (_hba : a.natAbs ≤ 2 ^ 53) (_hbnow : now.natAbs ≤ 2 ^ 53)
    (_hbdiff : (now - a).natAbs ≤ 2 ^ 53) (_hbmax : maxAgeSec.natAbs ≤ 2 ^ 53)
    (hexp : now - a > maxAgeSec) :
    verifyTelegramInitData initData botToken now maxAgeSec = .err "auth_date_expired" := by
  have hne : initData ≠ "" := by
    intro h0
    rw [h0, parseQuery_empty] at hh
    exact Option.noConfusion hh
  have hgt : jsGt (jsSub (jsRatOfInt now) ⟨a, 1⟩) (jsRatOfInt maxAgeSec) = true := by
    simp only [jsGt, jsSub, jsRatOfInt, decide_eq_true_eq]
    push_cast
    omega
  have hdel : getParam (deleteParam (parseQuery initData) "hash") "auth_date" = some s :=
    (getParam_deleteParam_ne _ _ _ (by decide)).trans hauth
  have hex : authDateExpired (deleteParam (parseQuery initData) "hash") now maxAgeSec = true :=
    authDateExpired_true _ _ _ _ _ hdel hs hnum hgt
  unfold verifyTelegramInitData
  rw [if_neg hne, if_neg htok]
  simp only [hh, if_neg hh0, hex, if_true]

set_option maxRecDepth 400000 in
theorem c3_auth_date_expired_witness :
    verifyTelegramInitData "hash=x&auth_date=100" "t" 1000000 86400 = .err "auth_date_expired" :=
  c3_auth_date_expired "hash=x&auth_date=100" "t" 1000000 86400 "100" "x" 100
    (by decide) (by decide) (by decide) (by decide) (by decide) (by decide)
    (by decide) (by decide) (by decide) (by decide) (by decide)

/-- Claim C10: when an `auth_date` field is present but its value is empty
or not a finite number, the verifier never reports `auth_date_expired`,
and its result does not depend on `now` or `maxAgeSec` at all — the expiry
check is skipped entirely, so such a payload can still verify to ok. -/
theorem c10_malformed_auth_date (initData botToken : String) (now maxAgeSec : Int)
    (s : String)
    (hauth : getParam (parseQuery initData) "auth_date" = some s)
    (hbad : s = "" ∨ jsNumber s = none) :
    verifyTelegramInitData initData botToken now maxAgeSec ≠ .err "auth_date_expired" ∧
    ∀ now' maxAgeSec' : Int,
      verifyTelegramInitData initData botToken now maxAgeSec =
        verifyTelegramInitData initData botToken now' maxAgeSec' := by
  have hdel : ∀ n m : Int,
      authDateExpired (deleteParam (parseQuery initData) "hash") n m = false := by
    intro n m
    exact authDateExpired_false_of_malformed _ _ _ _
      ((getParam_deleteParam_ne _ _ _ (by decide)).trans hauth) hbad
  constructor
  · rw [verify_shape_of_not_expired _ _ _ _ (hdel now maxAgeSec)]
    by_cases h1 : initData = ""
    · simp [h1]
    · by_cases h2 : botToken = ""
      · simp [h1, h2]
      · simp only [if_neg h1, if_neg h2]
        cases hg : getParam (parseQuery initData) "hash" with
        | none => simp
        | some h =>
          simp only []
          split
          · simp
          · split <;> simp
  · intro now' maxAgeSec'
    rw [verify_shape_of_not_expired _ _ _ _ (hdel now maxAgeSec),
      verify_shape_of_not_expired _ _ _ _ (hdel now' maxAgeSec')]

set_option maxRecDepth 100000 in
theorem c10_malformed_auth_date_witness :
    (verifyTelegramInitData
        "auth_date=abc&user=u&hash=2341d21e0bc0ea6fd89cbd85eb59c4a7a00da573f06560c7fda6129ec158ca46"
        "tok" 99999999999 86400 = .ok) ∧
    verifyTelegramInitData
        "auth_date=abc&user=u&hash=2341d21e0bc0ea6fd89cbd85eb59c4a7a00da573f06560c7fda6129ec158ca46"
        "tok" 99999999999 86400 ≠ .err "auth_date_expired" :=
  ⟨by decide,
    (c10_malformed_auth_date
      "auth_date=abc&user=u&hash=2341d21e0bc0ea6fd89cbd85eb59c4a7a00da573f06560c7fda6129ec158ca46"
      "tok" 99999999999 86400 "abc" (by decide) (Or.inr (by decide))).1⟩

/-! ## UTF-8 injectivity and the timing-safe comparison -/

theorem utf8Char_ne_nil (c : Char) : utf8Char c ≠ [] := by
  unfold utf8Char
  split_ifs <;> simp

theorem utf8Char_head_eq_length (c d : Char)
    (h : (utf8Char c).head? = (utf8Char d).head?) :
    (utf8Char c).length = (utf8Char d).length := by
  unfold utf8Char at h ⊢
  split_ifs at h ⊢ <;> simp_all <;> omega

theorem utf8Char_inj (c d : Char) (h : utf8Char c = utf8Char d) : c = d := by
  apply char_eq_of_toNat_eq
  unfold utf8Char at h
  split_ifs at h <;> simp_all <;> omega

theorem utf8_inj (xs : List Char) : ∀ ys, utf8 xs = utf8 ys → xs = ys := by
  induction xs with
  | nil =>
    intro ys h
    cases ys with
    | nil => rfl
    | cons y ys =>
      exfalso
      have hy : utf8Char y ++ utf8 ys = [] := by simpa [utf8] using h.symm
      exact utf8Char_ne_nil y (List.append_eq_nil.mp hy).1
  | cons x xs ih =>
    intro ys h
    cases ys with
    | nil =>
      exfalso
      have hx : utf8Char x ++ utf8 xs = [] := by simpa [utf8] using h
      exact utf8Char_ne_nil x (List.append_eq_nil.mp hx).1
    | cons y ys =>
      simp only [utf8] at h
      obtain ⟨a, as, ha⟩ := List.exists_cons_of_ne_nil (utf8Char_ne_nil x)
      obtain ⟨b, bs, hb⟩ := List.exists_cons_of_ne_nil (utf8Char_ne_nil y)
      have hhead : (utf8Char x).head? = (utf8Char y).head? := by
        rw [ha, hb]
        rw [ha, hb, List.cons_append, List.cons_append] at h
        injection h with h0 _
        simp [h0]
      obtain ⟨h1, h2⟩ := List.append_inj h (utf8Char_head_eq_length x y hhead)
      obtain rfl := utf8Char_inj x y h1
      obtain rfl := ih ys h2
      rfl

theorem safeEqBody_ok (a b : String) : safeEqBody a b = .ok (safeEq a b) := by
  unfold safeEq safeEqBody timingSafeEqual
  by_cases h : (utf8Str a).length = (utf8Str b).length <;> simp [h]

theorem safeEq_false_of_length_ne (a b : String)
    (h : (utf8Str a).length ≠ (utf8Str b).length) : safeEq a b = false := by
  unfold safeEq safeEqBody
  simp [h]

theorem safeEq_eq_true_iff (a b : String) : safeEq a b = true ↔ a = b := by
  constructor
  · intro hb
    unfold safeEq safeEqBody timingSafeEqual at hb
    by_cases h : (utf8Str a).length = (utf8Str b).length
    · simp only [h, ne_eq, not_true_eq_false, if_false, if_true, beq_iff_eq] at hb
      have hd := utf8_inj a.data b.data hb
      cases a
      cases b
      exact congrArg String.mk hd
    · simp [h] at hb
  · intro he
    subst he
    unfold safeEq safeEqBody timingSafeEqual
    simp

/-! ## Digest shape lemmas -/

theorem sha256Round_length (st : List Nat) (kw : Nat × Nat) :
    (sha256Round st kw).length = st.length := by
  unfold sha256Round
  split
  · simp
  · rfl

theorem foldl_sha256Round_length (l : List (Nat × Nat)) :
    ∀ st : List Nat, (l.foldl sha256Round st).length = st.length := by
  induction l with
  | nil => intro st; rfl
  | cons p ps ih =>
    intro st
    rw [List.foldl_cons, ih (sha256Round st p), sha256Round_length]

theorem sha256Compress_length (h block : List Nat) :
    (sha256Compress h block).length = h.length := by
  unfold sha256Compress
  rw [List.length_zipWith, foldl_sha256Round_length]
  exact Nat.min_self _

theorem foldl_sha256Compress_length (bs : List (List Nat)) :
    ∀ h : List Nat, (bs.foldl sha256Compress h).length = h.length := by
  induction bs with
  | nil => intro h; rfl
  | cons b rest ih =>
    intro h
    rw [List.foldl_cons, ih (sha256Compress h b), sha256Compress_length]

theorem sha256_ne_nil (msg : List Nat) : sha256 msg ≠ [] := by
  unfold sha256
  intro hc
  simp only [] at hc
  cases hh : ((chunks64 (padMessage msg).length (padMessage msg)).map bytesToWords).foldl
      sha256Compress sha256Init with
  | nil =>
    have := congrArg List.length hh
    rw [foldl_sha256Compress_length] at this
    simp [sha256Init] at this
  | cons w ws =>
    rw [hh] at hc
    have hb : (w :: ws).foldr (fun wrd acc => beBytes 4 wrd ++ acc) [] =
        w / 256 ^ 3 % 256 ::
          (beBytes 3 w ++ ws.foldr (fun wrd acc => beBytes 4 wrd ++ acc) []) := rfl
    rw [hb] at hc
    exact List.noConfusion hc

theorem bytesToHex_ne_empty : ∀ l : List Nat, l ≠ [] → bytesToHex l ≠ ""
  | [], h => absurd rfl h
  | _ :: _, _ => fun hc => List.noConfusion (congrArg String.data hc)

theorem toBase64Url_ne_empty : ∀ l : List Nat, l ≠ [] → toBase64Url l ≠ ""
  | [], h => absurd rfl h
  | [_], _ => fun hc => List.noConfusion (congrArg String.data hc)
  | [_, _], _ => fun hc => List.noConfusion (congrArg String.data hc)
  | _ :: _ :: _ :: _, _ => fun hc => List.noConfusion (congrArg String.data hc)

theorem computedHex_ne_empty (initData botToken : String) :
    computedHex initData botToken ≠ "" :=
  bytesToHex_ne_empty _ (sha256_ne_nil _)

theorem computedB64Url_ne_empty (initData botToken : String) :
    computedB64Url initData botToken ≠ "" :=
  toBase64Url_ne_empty _ (sha256_ne_nil _)

/-! ## Claim C2 -/

set_option maxRecDepth 400000 in
/-- Claim C2, counterexample: with the valid canonical message of
`user=alice` under token `tok`, the incoming hash below differs from the
computed base64url rendering only in letter case (its first letter is
upper-cased; the true rendering also contains other uppercase letters, so
neither the raw nor the lowercased incoming string matches byte-wise).  A
case-insensitive comparison against the base64url rendering succeeds, yet
the verifier rejects: acceptance is not equivalent to trimmed
case-insensitive equality with one of the two renderings. -/
theorem c2_counterexample :
    ¬ ((verifyTelegramInitData
          "user=alice&hash=NvSnZ3CI79uYCBDZjbyOwoKKhHPuAc6YcQvGHUi7H0o" "tok" 0 86400 = .ok) ↔
        (jsToLower (jsTrim "NvSnZ3CI79uYCBDZjbyOwoKKhHPuAc6YcQvGHUi7H0o") =
            jsToLower (computedHex "user=alice&hash=NvSnZ3CI79uYCBDZjbyOwoKKhHPuAc6YcQvGHUi7H0o"
              "tok") ∨
          jsToLower (jsTrim "NvSnZ3CI79uYCBDZjbyOwoKKhHPuAc6YcQvGHUi7H0o") =
            jsToLower (computedB64Url "user=alice&hash=NvSnZ3CI79uYCBDZjbyOwoKKhHPuAc6YcQvGHUi7H0o"
              "tok"))) := by
  decide

/-- Claim C2, amended: for initData whose `hash` field is present, with a
non-empty bot token and the expiry check not firing, the verifier accepts
iff the trimmed incoming hash lowercased equals the lowercase-hex
rendering, or the trimmed incoming hash — exactly, or lowercased — equals
the unpadded base64-url rendering (so the base64url comparison is not
fully case-insensitive); each comparison checks byte-length equality first
and evaluates to false, never throwing, on a length mismatch. -/
theorem c2_accept_iff_amended (initData botToken : String) (now maxAgeSec : Int) (h : String)
    (htok : botToken ≠ "")
    (hh : getParam (parseQuery initData) "hash" = some h)
    (hexp : authDateExpired (deleteParam (parseQuery initData) "hash") now maxAgeSec = false) :
    (verifyTelegramInitData initData botToken now maxAgeSec = .ok ↔
      (jsToLower (jsTrim h) = computedHex initData botToken ∨
        jsTrim h = computedB64Url initData botToken ∨
        jsToLower (jsTrim h) = computedB64Url initData botToken)) ∧
    (∀ a b : String, (utf8Str a).length ≠ (utf8Str b).length → safeEq a b = false) ∧
    (∀ a b : String, safeEqBody a b = Except.ok (safeEq a b)) := by
  refine ⟨?_, fun a b hab => safeEq_false_of_length_ne a b hab, fun a b => safeEqBody_ok a b⟩
  have hne : initData ≠ "" := by
    intro h0
    rw [h0, parseQuery_empty] at hh
    exact Option.noConfusion hh
  rw [verify_shape_of_not_expired _ _ _ _ hexp, if_neg hne, if_neg htok]
  simp only [hh]
  by_cases hh0 : h = ""
  · subst hh0
    rw [if_pos rfl]
    constructor
    · intro hc
      exact VerifyResult.noConfusion hc
    · rintro (h1 | h2 | h3)
      · exact absurd h1.symm (computedHex_ne_empty initData botToken)
      · exact absurd h2.symm (computedB64Url_ne_empty initData botToken)
      · exact absurd h3.symm (computedB64Url_ne_empty initData botToken)
  rw [if_neg hh0]
  have key : (safeEq (computedHex initData botToken) (jsToLower (jsTrim h))
      || safeEq (computedB64Url initData botToken) (jsTrim h)
      || safeEq (computedB64Url initData botToken) (jsToLower (jsTrim h))) = true ↔
      (jsToLower (jsTrim h) = computedHex initData botToken ∨
        jsTrim h = computedB64Url initData botToken ∨
        jsToLower (jsTrim h) = computedB64Url initData botToken) := by
    simp only [Bool.or_eq_true, safeEq_eq_true_iff, or_assoc]
    constructor
    · rintro (h1 | h2 | h3)
      exacts [Or.inl h1.symm, Or.inr (Or.inl h2.symm), Or.inr (Or.inr h3.symm)]
    · rintro (h1 | h2 | h3)
      exacts [Or.inl h1.symm, Or.inr (Or.inl h2.symm), Or.inr (Or.inr h3.symm)]
  rw [← key]
  cases hb : (safeEq (computedHex initData botToken) (jsToLower (jsTrim h))
      || safeEq (computedB64Url initData botToken) (jsTrim h)
      || safeEq (computedB64Url initData botToken) (jsToLower (jsTrim h))) <;>
    simp [hb]

set_option maxRecDepth 400000 in
theorem c2_accept_iff_amended_witness :
    (verifyTelegramInitData
        "user=u42&hash=22fcf845bd1804cb16765361c9f494941062690ce20551a7c8e35d84adb7209d"
        "tok" 0 86400 = .ok ↔
      (jsToLower (jsTrim "22fcf845bd1804cb16765361c9f494941062690ce20551a7c8e35d84adb7209d") =
          computedHex
            "user=u42&hash=22fcf845bd1804cb16765361c9f494941062690ce20551a7c8e35d84adb7209d"
            "tok" ∨
        jsTrim "22fcf845bd1804cb16765361c9f494941062690ce20551a7c8e35d84adb7209d" =
          computedB64Url
            "user=u42&hash=22fcf845bd1804cb16765361c9f494941062690ce20551a7c8e35d84adb7209d"
            "tok" ∨
        jsToLower (jsTrim "22fcf845bd1804cb16765361c9f494941062690ce20551a7c8e35d84adb7209d") =
          computedB64Url
            "user=u42&hash=22fcf845bd1804cb16765361c9f494941062690ce20551a7c8e35d84adb7209d"
            "tok")) ∧
    (∀ a b : String, (utf8Str a).length ≠ (utf8Str b).length → safeEq a b = false) ∧
    (∀ a b : String, safeEqBody a b = Except.ok (safeEq a b)) :=
  c2_accept_iff_amended
    "user=u42&hash=22fcf845bd1804cb16765361c9f494941062690ce20551a7c8e35d84adb7209d"
    "tok" 0 86400 "22fcf845bd1804cb16765361c9f494941062690ce20551a7c8e35d84adb7209d"
    (by decide) (by decide) (by decide)

/-! ## Claim C4 -/

/-- Claim C4: for a request whose initData verifies, an absent or
unparsable `user` field makes the gate reject with the no-user error (the
401 of the source carries `error: "No user"`, the spec's reason code
`no_user`); when the gate succeeds, the bound principal id is exactly the
`id` field of the parsed `user` JSON. -/
theorem c4_no_user_and_principal (parse : String → Option TgUser)
    (initData botToken : String) (now : Int)
    (hne : initData ≠ "")
    (hver : verifyTelegramInitData initData botToken now 86400 = .ok) :
    ((getParam (parseQuery initData) "user" = none ∨
        (∀ us, getParam (parseQuery initData) "user" = some us → parse us = none)) →
      requireUser parse (some initData) botToken now = .unauthorized "No user") ∧
    (∀ uid, requireUser parse (some initData) botToken now = .ok uid →
      ∃ us u, getParam (parseQuery initData) "user" = some us ∧ parse us = some u ∧
        uid = u.id) := by
  constructor
  · intro hu
    simp only [requireUser, getTelegramUserFromInitData, if_neg hne, hver]
    rcases hu with hu | hu
    · simp [hu]
    · cases hg : getParam (parseQuery initData) "user" with
      | none => simp [hg]
      | some us => simp [hg, hu us hg]
  · intro uid hreq
    simp only [requireUser, getTelegramUserFromInitData, if_neg hne, hver] at hreq
    cases hg : getParam (parseQuery initData) "user" with
    | none =>
      rw [hg] at hreq
      simp only [Option.none_bind] at hreq
      exact absurd hreq (by simp)
    | some us =>
      rw [hg] at hreq
      simp only [Option.some_bind] at hreq
      cases hp : parse us with
      | none =>
        simp only [hp] at hreq
        exact absurd hreq (by simp)
      | some u =>
        simp only [hp] at hreq
        by_cases hz : u.id = 0
        · rw [if_pos hz] at hreq
          exact absurd hreq (by simp)
        · rw [if_neg hz] at hreq
          refine ⟨us, u, rfl, hp, ?_⟩
          cases hreq
          rfl

set_option maxRecDepth 400000 in
theorem c4_no_user_and_principal_witness :
    (((getParam (parseQuery
          "user=u42&hash=22fcf845bd1804cb16765361c9f494941062690ce20551a7c8e35d84adb7209d")
          "user" = none ∨
        (∀ us, getParam (parseQuery
            "user=u42&hash=22fcf845bd1804cb16765361c9f494941062690ce20551a7c8e35d84adb7209d")
            "user" = some us →
          (fun s => if s = "u42" then some (⟨42, none, none⟩ : TgUser) else none) us = none)) →
      requireUser (fun s => if s = "u42" then some (⟨42, none, none⟩ : TgUser) else none)
        (some "user=u42&hash=22fcf845bd1804cb16765361c9f494941062690ce20551a7c8e35d84adb7209d")
        "tok" 0 = .unauthorized "No user") ∧
    (∀ uid,
      requireUser (fun s => if s = "u42" then some (⟨42, none, none⟩ : TgUser) else none)
        (some "user=u42&hash=22fcf845bd1804cb16765361c9f494941062690ce20551a7c8e35d84adb7209d")
        "tok" 0 = .ok uid →
      ∃ us u, getParam (parseQuery
          "user=u42&hash=22fcf845bd1804cb16765361c9f494941062690ce20551a7c8e35d84adb7209d")
          "user" = some us ∧
        (fun s => if s = "u42" then some (⟨42, none, none⟩ : TgUser) else none) us = some u ∧
        uid = u.id)) :=
  c4_no_user_and_principal
    (fun s => if s = "u42" then some (⟨42, none, none⟩ : TgUser) else none)
    "user=u42&hash=22fcf845bd1804cb16765361c9f494941062690ce20551a7c8e35d84adb7209d"
    "tok" 0 (by decide) (by decide)

/-! ## Comparator lemmas for the canonical sort -/

theorem natCmp_eq_iff (a b : Nat) : natCmp a b = .eq ↔ a = b := by
  unfold natCmp
  split_ifs with h1 h2
  · constructor
    · intro h
      exact absurd h (by simp)
    · intro h
      exact absurd h (by omega)
  · constructor
    · intro h
      exact absurd h (by simp)
    · intro h
      exact absurd h (by omega)
  · constructor
    · intro _
      omega
    · intro _
      rfl

theorem natCmp_gt_iff (a b : Nat) : natCmp a b = .gt ↔ natCmp b a = .lt := by
  unfold natCmp
  rcases Nat.lt_trichotomy a b with h | h | h
  · rw [if_pos h, if_neg (by omega), if_pos h]
    simp
  · rw [if_neg (by omega), if_neg (by omega), if_neg (by omega), if_neg (by omega)]
    simp
  · rw [if_neg (by omega), if_pos h, if_pos h]
    simp

theorem natCmp_lt_trans {a b c : Nat} (h1 : natCmp a b = .lt) (h2 : natCmp b c = .lt) :
    natCmp a c = .lt := by
  unfold natCmp at *
  split_ifs at * <;> simp_all <;> omega

theorem natListCmp_eq_iff : ∀ xs ys : List Nat, natListCmp xs ys = .eq ↔ xs = ys := by
  intro xs
  induction xs with
  | nil =>
    intro ys
    cases ys <;> simp [natListCmp]
  | cons a as ih =>
    intro ys
    cases ys with
    | nil => simp [natListCmp]
    | cons b bs =>
      simp only [natListCmp]
      cases hc : natCmp a b with
      | eq =>
        obtain rfl : a = b := (natCmp_eq_iff a b).mp hc
        simp [ih]
      | lt =>
        have hne : a ≠ b := fun h => by
          rw [(natCmp_eq_iff a b).mpr h] at hc
          cases hc
        simp [hne]
      | gt =>
        have hne : a ≠ b := fun h => by
          rw [(natCmp_eq_iff a b).mpr h] at hc
          cases hc
        simp [hne]

theorem natListCmp_gt_iff : ∀ xs ys : List Nat,
    natListCmp xs ys = .gt ↔ natListCmp ys xs = .lt := by
  intro xs
  induction xs with
  | nil =>
    intro ys
    cases ys <;> simp [natListCmp]
  | cons a as ih =>
    intro ys
    cases ys with
    | nil => simp [natListCmp]
    | cons b bs =>
      simp only [natListCmp]
      cases hc : natCmp a b with
      | eq =>
        have hc' : natCmp b a = .eq := (natCmp_eq_iff b a).mpr ((natCmp_eq_iff a b).mp hc).symm
        simp [hc', ih]
      | lt =>
        have hc' : natCmp b a = .gt := (natCmp_gt_iff b a).mpr hc
        simp [hc']
      | gt =>
        have hc' : natCmp b a = .lt := (natCmp_gt_iff a b).mp hc
        simp [hc']

theorem natListCmp_lt_trans : ∀ {xs ys zs : List Nat},
    natListCmp xs ys = .lt → natListCmp ys zs = .lt → natListCmp xs zs = .lt := by
  intro xs
  induction xs with
  | nil =>
    intro ys zs h1 h2
    cases ys with
    | nil => exact h2
    | cons b bs =>
      cases zs with
      | nil => simp [natListCmp] at h2
      | cons c cs => simp [natListCmp]
  | cons a as ih =>
    intro ys zs h1 h2
    cases ys with
    | nil => simp [natListCmp] at h1
    | cons b bs =>
      cases zs with
      | nil => simp [natListCmp] at h2
      | cons c cs =>
        simp only [natListCmp] at h1 h2 ⊢
        cases hab : natCmp a b with
        | gt => simp [hab] at h1
        | eq =>
          obtain rfl : a = b := (natCmp_eq_iff a b).mp hab
          simp only [hab] at h1
          cases hbc : natCmp a c with
          | gt => simp [hbc] at h2
          | eq =>
            simp only [hbc] at h2 ⊢
            exact ih h1 h2
          | lt => simp [hbc]
        | lt =>
          simp only [hab] at h1
          cases hbc : natCmp b c with
          | gt => simp [hbc] at h2
          | eq =>
            obtain rfl : b = c := (natCmp_eq_iff b c).mp hbc
            simp [hab]
          | lt => simp [natCmp_lt_trans hab hbc]

theorem localeCompare_eq_iff (a b : String) :
    localeCompare a b = .eq ↔ collPrimary a = collPrimary b ∧ collCase a = collCase b := by
  unfold localeCompare
  cases hc : natListCmp (collPrimary a) (collPrimary b) with
  | eq =>
    have hp := (natListCmp_eq_iff _ _).mp hc
    simp [hp, natListCmp_eq_iff]
  | lt =>
    have hne : ¬ collPrimary a = collPrimary b := fun h => by
      rw [(natListCmp_eq_iff _ _).mpr h] at hc
      cases hc
    simp [hne]
  | gt =>
    have hne : ¬ collPrimary a = collPrimary b := fun h => by
      rw [(natListCmp_eq_iff _ _).mpr h] at hc
      cases hc
    simp [hne]

theorem localeCompare_gt_iff (a b : String) :
    localeCompare a b = .gt ↔ localeCompare b a = .lt := by
  unfold localeCompare
  cases hc : natListCmp (collPrimary a) (collPrimary b) with
  | eq =>
    have hc' : natListCmp (collPrimary b) (collPrimary a) = .eq :=
      (natListCmp_eq_iff _ _).mpr ((natListCmp_eq_iff _ _).mp hc).symm
    simp [hc', natListCmp_gt_iff]
  | lt =>
    have hc' : natListCmp (collPrimary b) (collPrimary a) = .gt :=
      (natListCmp_gt_iff _ _).mpr hc
    simp [hc']
  | gt =>
    have hc' : natListCmp (collPrimary b) (collPrimary a) = .lt :=
      (natListCmp_gt_iff _ _).mp hc
    simp [hc']

theorem localeCompare_lt_trans {a b c : String}
    (h1 : localeCompare a b = .lt) (h2 : localeCompare b c = .lt) :
    localeCompare a c = .lt := by
  unfold localeCompare at *
  cases hab : natListCmp (collPrimary a) (collPrimary b) with
  | gt => simp [hab] at h1
  | eq =>
    have hp : collPrimary a = collPrimary b := (natListCmp_eq_iff _ _).mp hab
    simp only [hab] at h1
    cases hbc : natListCmp (collPrimary b) (collPrimary c) with
    | gt => simp [hbc] at h2
    | eq =>
      simp only [hbc] at h2
      rw [hp, hbc]
      exact natListCmp_lt_trans h1 h2
    | lt => rw [hp, hbc]
  | lt =>
    simp only [hab] at h1
    cases hbc : natListCmp (collPrimary b) (collPrimary c) with
    | gt => simp [hbc] at h2
    | eq =>
      have hp : collPrimary b = collPrimary c := (natListCmp_eq_iff _ _).mp hbc
      rw [← hp, hab]
    | lt => rw [natListCmp_lt_trans hab hbc]

theorem localeCompare_congr_left {a b : String} (c : String)
    (h : localeCompare a b = .eq) : localeCompare a c = localeCompare b c := by
  obtain ⟨h1, h2⟩ := (localeCompare_eq_iff a b).mp h
  unfold localeCompare
  rw [h1, h2]

theorem localeCompare_congr_right {a b : String} (c : String)
    (h : localeCompare a b = .eq) : localeCompare c a = localeCompare c b := by
  obtain ⟨h1, h2⟩ := (localeCompare_eq_iff a b).mp h
  unfold localeCompare
  rw [h1, h2]

instance : IsTrans (String × String) pairLe :=
  ⟨by
    intro p q r hpq hqr
    unfold pairLe at *
    cases hc : localeCompare p.1 q.1 with
    | gt => exact absurd hc hpq
    | eq =>
      rw [localeCompare_congr_left r.1 hc]
      exact hqr
    | lt =>
      cases hc2 : localeCompare q.1 r.1 with
      | gt => exact absurd hc2 hqr
      | eq =>
        rw [← localeCompare_congr_right p.1 hc2, hc]
        simp
      | lt =>
        rw [localeCompare_lt_trans hc hc2]
        simp⟩

instance : IsTotal (String × String) pairLe :=
  ⟨by
    intro p q
    unfold pairLe
    cases hc : localeCompare p.1 q.1 with
    | lt =>
      left
      simp [hc]
    | eq =>
      left
      simp [hc]
    | gt =>
      right
      rw [(localeCompare_gt_iff p.1 q.1).mp hc]
      simp⟩

/-! ## Lookup under permutation, and uniqueness of the stable sort -/

theorem getParam_eq_none_iff (l : List (String × String)) (k : String) :
    getParam l k = none ↔ ∀ v, (k, v) ∉ l := by
  induction l with
  | nil => simp [getParam]
  | cons p ps ih =>
    simp only [getParam]
    by_cases hp : p.1 = k
    · simp only [if_pos hp]
      constructor
      · intro h
        exact absurd h (by simp)
      · intro h
        exfalso
        exact h p.2 (by rw [← hp]; exact List.mem_cons_self p ps)
    · simp only [if_neg hp, ih]
      constructor
      · intro h v hv
        rcases List.mem_cons.mp hv with h' | h'
        · exact hp (by rw [← h'])
        · exact h v h'
      · intro h v hv
        exact h v (List.mem_cons_of_mem p hv)

theorem getParam_eq_some_of_mem (l : List (String × String)) (k v : String)
    (hnodup : (l.map Prod.fst).Nodup) (hm : (k, v) ∈ l) : getParam l k = some v := by
  induction l with
  | nil => cases hm
  | cons p ps ih =>
    simp only [List.map_cons, List.nodup_cons] at hnodup
    rcases List.mem_cons.mp hm with h' | h'
    · simp [getParam, ← h']
    · have hp : p.1 ≠ k := by
        intro hc
        exact hnodup.1 (by
          rw [hc]
          exact List.mem_map_of_mem Prod.fst h')
      simp [getParam, hp, ih hnodup.2 h']

theorem getParam_mem_of_eq_some (l : List (String × String)) (k v : String)
    (h : getParam l k = some v) : (k, v) ∈ l := by
  induction l with
  | nil => cases h
  | cons p ps ih =>
    simp only [getParam] at h
    by_cases hp : p.1 = k
    · rw [if_pos hp] at h
      cases h
      have hkp : (k, p.2) = p := by rw [← hp]
      rw [hkp]
      exact List.mem_cons_self p ps
    · rw [if_neg hp] at h
      exact List.mem_cons_of_mem p (ih h)

theorem getParam_perm (l1 l2 : List (String × String)) (h : l1.Perm l2)
    (hnodup : (l1.map Prod.fst).Nodup) (k : String) :
    getParam l1 k = getParam l2 k := by
  have hnodup2 : (l2.map Prod.fst).Nodup := ((h.map Prod.fst).nodup_iff).mp hnodup
  cases hg : getParam l1 k with
  | none =>
    symm
    rw [getParam_eq_none_iff] at hg ⊢
    intro v hv
    exact hg v (h.mem_iff.mpr hv)
  | some v =>
    exact (getParam_eq_some_of_mem l2 k v hnodup2
      (h.mem_iff.mp (getParam_mem_of_eq_some l1 k v hg))).symm

theorem eq_of_mem_of_nodup_keys (l : List (String × String))
    (hn : (l.map Prod.fst).Nodup) (p q : String × String)
    (hp : p ∈ l) (hq : q ∈ l) (hk : p.1 = q.1) : p = q := by
  induction l with
  | nil => cases hp
  | cons r t ih =>
    simp only [List.map_cons, List.nodup_cons] at hn
    rcases List.mem_cons.mp hp with h1 | h1 <;> rcases List.mem_cons.mp hq with h2 | h2
    · rw [h1, h2]
    · exfalso
      apply hn.1
      rw [← h1, hk]
      exact List.mem_map_of_mem Prod.fst h2
    · exfalso
      apply hn.1
      rw [← h2, ← hk]
      exact List.mem_map_of_mem Prod.fst h1
    · exact ih hn.2 h1 h2

theorem eq_of_perm_of_sorted_of_antisymm {α : Type} {le : α → α → Prop} :
    ∀ {l1 l2 : List α}, l1.Perm l2 → l1.Sorted le → l2.Sorted le →
      (∀ a ∈ l1, ∀ b ∈ l1, le a b → le b a → a = b) → l1 = l2 := by
  intro l1
  induction l1 with
  | nil =>
    intro l2 hp _ _ _
    exact (List.Perm.eq_nil hp.symm).symm
  | cons a t1 ih =>
    intro l2 hp hs1 hs2 hanti
    cases l2 with
    | nil => exact List.Perm.eq_nil hp
    | cons b t2 =>
      have hab : a = b := by
        by_cases h : a = b
        · exact h
        · have ha2 : a ∈ b :: t2 := hp.mem_iff.mp (List.mem_cons_self a t1)
          have hb1 : b ∈ a :: t1 := hp.symm.mem_iff.mp (List.mem_cons_self b t2)
          have hat2 : a ∈ t2 := by
            rcases List.mem_cons.mp ha2 with h' | h'
            · exact absurd h' h
            · exact h'
          have hbt1 : b ∈ t1 := by
            rcases List.mem_cons.mp hb1 with h' | h'
            · exact absurd h'.symm h
            · exact h'
          have hle1 : le a b := List.rel_of_sorted_cons hs1 b hbt1
          have hle2 : le b a := List.rel_of_sorted_cons hs2 a hat2
          exact hanti a (List.mem_cons_self a t1) b hb1 hle1 hle2
      subst hab
      have hp' : t1.Perm t2 := hp.cons_inv
      have ht : t1 = t2 := ih hp' (List.sorted_cons.mp hs1).2 (List.sorted_cons.mp hs2).2
        (fun x hx y hy hxy hyx =>
          hanti x (List.mem_cons_of_mem a hx) y (List.mem_cons_of_mem a hy) hxy hyx)
      rw [ht]

/-! ## Claim C1 -/

set_option maxRecDepth 400000 in
/-- Claim C1, counterexample: the two initData strings parse to entry lists
that are permutations of each other (the two `a` fields swapped), yet under
the same secret one verifies and the other does not: the first string
carries the correct MAC of its own canonical message `a=1`, newline, `a=2`,
and the stable sort leaves entries with equal keys in input order, so the
permuted input canonicalizes to a different message.  Verification is
therefore not order-independent for every field set. -/
theorem c1_counterexample :
    (parseQuery
        "a=1&a=2&hash=a41a10fbcd8cb5204889c9e16bebebdd44360e85b72b505fddc5f62a3649ba07").Perm
      (parseQuery
        "a=2&a=1&hash=a41a10fbcd8cb5204889c9e16bebebdd44360e85b72b505fddc5f62a3649ba07") ∧
    verifyTelegramInitData
      "a=1&a=2&hash=a41a10fbcd8cb5204889c9e16bebebdd44360e85b72b505fddc5f62a3649ba07"
      "tok" 0 86400 = .ok ∧
    verifyTelegramInitData
      "a=2&a=1&hash=a41a10fbcd8cb5204889c9e16bebebdd44360e85b72b505fddc5f62a3649ba07"
      "tok" 0 86400 = .err "hash_mismatch" :=
  ⟨by decide, by decide, by decide⟩

/-- Claim C1, amended: verification is order-independent for initData whose
field keys are pairwise distinct and pairwise separated by the collator
(no two distinct present keys compare equal under `localeCompare`) — in
particular for every ordinary payload with distinct ASCII keys.  The
canonical message sorts keys by the locale-sensitive `localeCompare`, not
by a byte/codepoint ordering, and the sort is stable, so duplicate keys or
distinct keys that collate equal make the result depend on input order. -/
theorem c1_order_independent_amended (d1 d2 botToken : String) (now maxAgeSec : Int)
    (hne1 : d1 ≠ "") (hne2 : d2 ≠ "")
    (hperm : (parseQuery d1).Perm (parseQuery d2))
    (hnodup : ((parseQuery d1).map Prod.fst).Nodup)
    (hsep : ∀ k1 ∈ (parseQuery d1).map Prod.fst, ∀ k2 ∈ (parseQuery d1).map Prod.fst,
      localeCompare k1 k2 = .eq → k1 = k2) :
    verifyTelegramInitData d1 botToken now maxAgeSec =
      verifyTelegramInitData d2 botToken now maxAgeSec := by
  have hhash : getParam (parseQuery d1) "hash" = getParam (parseQuery d2) "hash" :=
    getParam_perm _ _ hperm hnodup "hash"
  have hpermdel :
      (deleteParam (parseQuery d1) "hash").Perm (deleteParam (parseQuery d2) "hash") :=
    hperm.filter _
  have hsub : (deleteParam (parseQuery d1) "hash").Sublist (parseQuery d1) :=
    List.filter_sublist _
  have hnodupdel : ((deleteParam (parseQuery d1) "hash").map Prod.fst).Nodup :=
    hnodup.sublist (hsub.map Prod.fst)
  have hauth : getParam (deleteParam (parseQuery d1) "hash") "auth_date" =
      getParam (deleteParam (parseQuery d2) "hash") "auth_date" :=
    getParam_perm _ _ hpermdel hnodupdel "auth_date"
  have hexp : authDateExpired (deleteParam (parseQuery d1) "hash") now maxAgeSec =
      authDateExpired (deleteParam (parseQuery d2) "hash") now maxAgeSec := by
    unfold authDateExpired
    rw [hauth]
  have hcanon : canonicalPairs d1 = canonicalPairs d2 := by
    unfold canonicalPairs
    apply eq_of_perm_of_sorted_of_antisymm
      ((List.perm_insertionSort pairLe _).trans
        (hpermdel.trans (List.perm_insertionSort pairLe _).symm))
      (List.sorted_insertionSort pairLe _)
      (List.sorted_insertionSort pairLe _)
    intro x hx y hy hxy hyx
    have hx1 : x ∈ deleteParam (parseQuery d1) "hash" :=
      (List.perm_insertionSort pairLe _).mem_iff.mp hx
    have hy1 : y ∈ deleteParam (parseQuery d1) "hash" :=
      (List.perm_insertionSort pairLe _).mem_iff.mp hy
    have hx2 : x ∈ parseQuery d1 := hsub.subset hx1
    have hy2 : y ∈ parseQuery d1 := hsub.subset hy1
    have hkeq : localeCompare x.1 y.1 = .eq := by
      unfold pairLe at hxy hyx
      cases hc : localeCompare x.1 y.1 with
      | eq => rfl
      | gt => exact absurd hc hxy
      | lt => exact absurd ((localeCompare_gt_iff y.1 x.1).mpr hc) hyx
    have hk : x.1 = y.1 :=
      hsep x.1 (List.mem_map_of_mem Prod.fst hx2) y.1 (List.mem_map_of_mem Prod.fst hy2) hkeq
    exact eq_of_mem_of_nodup_keys (parseQuery d1) hnodup x y hx2 hy2 hk
  have hdcs : dataCheckString d1 = dataCheckString d2 := by
    unfold dataCheckString
    rw [hcanon]
  have hhex : computedHex d1 botToken = computedHex d2 botToken := by
    unfold computedHex computedHmac
    rw [hdcs]
  have hb64 : computedB64Url d1 botToken = computedB64Url d2 botToken := by
    unfold computedB64Url computedHmac
    rw [hdcs]
  unfold verifyTelegramInitData
  rw [if_neg hne1, if_neg hne2]
  by_cases htok : botToken = ""
  · rw [if_pos htok, if_pos htok]
  · rw [if_neg htok, if_neg htok]
    simp only [← hhash]
    cases hg : getParam (parseQuery d1) "hash" with
    | none => rfl
    | some h => simp only [hexp, hhex, hb64]

theorem c1_order_independent_amended_witness :
    verifyTelegramInitData "b=2&a=1&hash=x" "tok" 0 86400 =
      verifyTelegramInitData "a=1&hash=x&b=2" "tok" 0 86400 :=
  c1_order_independent_amended "b=2&a=1&hash=x" "a=1&hash=x&b=2" "tok" 0 86400
    (by decide) (by decide) (by decide) (by decide) (by decide)

/-! ## Store operation lemmas -/

theorem upsertWorkout_exercises (uid : Int) (d : String) (t n : Option String) (st : Store) :
    (upsertWorkout uid d t n st).2.exercises = st.exercises := by
  unfold upsertWorkout
  cases h : st.workouts.find? (fun w => w.user_id == uid && w.workout_date == d) <;> simp [h]

theorem upsertWorkout_sets (uid : Int) (d : String) (t n : Option String) (st : Store) :
    (upsertWorkout uid d t n st).2.sets = st.sets := by
  unfold upsertWorkout
  cases h : st.workouts.find? (fun w => w.user_id == uid && w.workout_date == d) <;> simp [h]

theorem upsertWorkout_nextId (uid : Int) (d : String) (t n : Option String) (st : Store) :
    st.nextId ≤ (upsertWorkout uid d t n st).2.nextId ∧
    (upsertWorkout uid d t n st).2.nextId ≤ st.nextId + 1 := by
  unfold upsertWorkout
  cases h : st.workouts.find? (fun w => w.user_id == uid && w.workout_date == d) <;>
    simp [h]

theorem upsertWorkout_row (uid : Int) (d : String) (t n : Option String) (st : Store) :
    (upsertWorkout uid d t n st).1.user_id = uid ∧
    (upsertWorkout uid d t n st).1.workout_date = d ∧
    (upsertWorkout uid d t n st).1.title = t ∧
    (upsertWorkout uid d t n st).1.notes = n := by
  unfold upsertWorkout
  cases h : st.workouts.find? (fun w => w.user_id == uid && w.workout_date == d) with
  | none => simp
  | some w =>
    have hw := List.find?_some h
    simp only [Bool.and_eq_true, beq_iff_eq] at hw
    simp [h, hw.1, hw.2]

theorem upsertWorkout_id_bounds (uid : Int) (d : String) (t n : Option String) (st : Store)
    (hn : 0 ≤ st.nextId) (hb : ∀ w ∈ st.workouts, 0 ≤ w.id ∧ w.id < st.nextId) :
    0 ≤ (upsertWorkout uid d t n st).1.id ∧
    (upsertWorkout uid d t n st).1.id < (upsertWorkout uid d t n st).2.nextId := by
  unfold upsertWorkout
  cases h : st.workouts.find? (fun w => w.user_id == uid && w.workout_date == d) with
  | none => simp; omega
  | some w =>
    have hmem : w ∈ st.workouts := List.mem_of_find?_eq_some h
    have hw := hb w hmem
    simp [h]
    omega

theorem insertExercisesFrom_cons (wid pos : Int) (e : InputExercise)
    (es : List InputExercise) (st : Store) :
    insertExercisesFrom wid pos (e :: es) st =
      ((⟨st.nextId, wid, e.name, pos⟩ : ExerciseRow) ::
        (insertExercisesFrom wid (pos + 1) es
          { st with
            exercises := st.exercises ++ [⟨st.nextId, wid, e.name, pos⟩]
            nextId := st.nextId + 1 }).1,
      (insertExercisesFrom wid (pos + 1) es
          { st with
            exercises := st.exercises ++ [⟨st.nextId, wid, e.name, pos⟩]
            nextId := st.nextId + 1 }).2) := rfl

theorem posNumbered_length : ∀ (exs : List InputExercise) (n : Int),
    (posNumbered n exs).length = exs.length := by
  intro exs
  induction exs with
  | nil => intro n; rfl
  | cons e es ih => intro n; simp [posNumbered, ih]

theorem insertExercisesFrom_spec (wid : Int) :
    ∀ (exs : List InputExercise) (pos : Int) (st : Store),
      (insertExercisesFrom wid pos exs st).2.workouts = st.workouts ∧
      (insertExercisesFrom wid pos exs st).2.sets = st.sets ∧
      (insertExercisesFrom wid pos exs st).2.exercises =
        st.exercises ++ (insertExercisesFrom wid pos exs st).1 ∧
      (insertExercisesFrom wid pos exs st).2.nextId = st.nextId + (exs.length : Int) ∧
      (insertExercisesFrom wid pos exs st).1.map (fun r => (r.name, r.position)) =
        posNumbered pos exs ∧
      (∀ r ∈ (insertExercisesFrom wid pos exs st).1,
        r.workout_id = wid ∧ st.nextId ≤ r.id ∧ r.id < st.nextId + (exs.length : Int)) ∧
      ((insertExercisesFrom wid pos exs st).1.map (fun r => r.id)).Pairwise (· < ·) := by
  intro exs
  induction exs with
  | nil =>
    intro pos st
    refine ⟨rfl, rfl, by simp [insertExercisesFrom], by simp [insertExercisesFrom], rfl,
      ?_, by simp [insertExercisesFrom]⟩
    intro r hr
    simp [insertExercisesFrom] at hr
  | cons e es ih =>
    intro pos st
    obtain ⟨r1, r2, r3, r4, r5, r6, r7⟩ := ih (pos + 1)
      { st with
        exercises := st.exercises ++ [⟨st.nextId, wid, e.name, pos⟩]
        nextId := st.nextId + 1 }
    rw [insertExercisesFrom_cons]
    refine ⟨by simpa using r1, by simpa using r2, ?_, ?_, ?_, ?_, ?_⟩
    · rw [r3]
      simp
    · rw [r4]
      simp
      omega
    · simp only [List.map_cons, posNumbered, r5]
    · intro r hr
      rcases List.mem_cons.mp hr with h | h
      · subst h
        refine ⟨rfl, le_refl _, ?_⟩
        simp
      · obtain ⟨ha, hb, hc⟩ := r6 r h
        simp only at hb hc
        refine ⟨ha, by omega, by simpa using (by omega : r.id < st.nextId + ((es.length : Int) + 1))⟩
    · rw [List.map_cons, List.pairwise_cons]
      constructor
      · intro y hy
        obtain ⟨r, hr, hry⟩ := List.mem_map.mp hy
        obtain ⟨_, hb, _⟩ := r6 r hr
        simp only at hb
        subst hry
        simp only
        omega
      · exact r7

theorem insertSets_cons (r : NewSetRow) (rs : List NewSetRow) (st : Store) :
    insertSets (r :: rs) st =
      insertSets rs { st with
        sets := st.sets ++ [⟨st.nextId, r.exercise_id, r.set_no, r.reps, r.weight_kg⟩]
        nextId := st.nextId + 1 } := rfl

theorem insertSets_spec : ∀ (rows : List NewSetRow) (st : Store),
    (insertSets rows st).workouts = st.workouts ∧
    (insertSets rows st).exercises = st.exercises ∧
    (insertSets rows st).nextId = st.nextId + (rows.length : Int) ∧
    ∃ newRows, (insertSets rows st).sets = st.sets ++ newRows ∧
      newRows.map (fun s => (s.exercise_id, s.set_no, s.reps, s.weight_kg)) =
        rows.map (fun r => (r.exercise_id, r.set_no, r.reps, r.weight_kg)) ∧
      (∀ s ∈ newRows, st.nextId ≤ s.id ∧ s.id < st.nextId + (rows.length : Int)) ∧
      (newRows.map (fun s => s.id)).Pairwise (· < ·) := by
  intro rows
  induction rows with
  | nil =>
    intro st
    exact ⟨rfl, rfl, by simp [insertSets], [], by simp [insertSets], rfl, by simp, by simp⟩
  | cons r rs ih =>
    intro st
    obtain ⟨i1, i2, i3, newRows, i4, i5, i6, i7⟩ := ih
      { st with
        sets := st.sets ++ [⟨st.nextId, r.exercise_id, r.set_no, r.reps, r.weight_kg⟩]
        nextId := st.nextId + 1 }
    rw [insertSets_cons]
    refine ⟨by simpa using i1, by simpa using i2, ?_,
      (⟨st.nextId, r.exercise_id, r.set_no, r.reps, r.weight_kg⟩ : SetRow) :: newRows,
      ?_, ?_, ?_, ?_⟩
    · rw [i3]
      simp
      omega
    · rw [i4]
      simp
    · simp [i5]
    · intro s hs
      rcases List.mem_cons.mp hs with h | h
      · subst h
        simp
      · obtain ⟨hb, hc⟩ := i6 s h
        simp only [List.length_cons] at hb hc ⊢
        push_cast at hb hc ⊢
        constructor <;> omega
    · rw [List.map_cons, List.pairwise_cons]
      constructor
      · intro y hy
        obtain ⟨s, hs, hsy⟩ := List.mem_map.mp hy
        obtain ⟨hb, _⟩ := i6 s hs
        simp only at hb
        subst hsy
        simp only
        omega
      · exact i7

theorem numberSets_mem_exercise_id (exId : Int) :
    ∀ (n : Int) (l : List InputSet), ∀ r ∈ numberSets exId n l, r.exercise_id = exId := by
  intro n l
  induction l generalizing n with
  | nil => intro r hr; cases hr
  | cons s ss ih =>
    intro r hr
    rcases List.mem_cons.mp hr with h | h
    · subst h; rfl
    · exact ih (n + 1) r h

theorem numberSets_map (exId : Int) :
    ∀ (l : List InputSet) (n : Int),
      (numberSets exId n l).map (fun r => (r.set_no, r.reps, r.weight_kg)) = setTriples n l := by
  intro l
  induction l with
  | nil => intro n; rfl
  | cons s ss ih => intro n; simp [numberSets, setTriples, ih]

theorem numberSets_eq_nil_iff (exId n : Int) (l : List InputSet) :
    numberSets exId n l = [] ↔ l = [] := by
  cases l <;> simp [numberSets]

theorem setRowsFor_mem_ids : ∀ (pairs : List (InputExercise × ExerciseRow)),
    ∀ s ∈ setRowsFor pairs, ∃ p ∈ pairs, s.exercise_id = p.2.id := by
  intro pairs
  induction pairs with
  | nil => intro s hs; cases hs
  | cons p rest ih =>
    intro s hs
    rcases List.mem_append.mp (by simpa [setRowsFor] using hs) with h | h
    · exact ⟨p, List.mem_cons_self p rest, numberSets_mem_exercise_id p.2.id 1 (p.1.sets.getD []) s h⟩
    · obtain ⟨q, hq, hqid⟩ := ih s h
      exact ⟨q, List.mem_cons_of_mem p hq, hqid⟩

theorem setRowsFor_filter_of_mem :
    ∀ (pairs : List (InputExercise × ExerciseRow)),
      ((pairs.map (fun p => p.2.id)).Nodup) →
      ∀ p ∈ pairs,
        (setRowsFor pairs).filter (fun r => r.exercise_id == p.2.id) =
          numberSets p.2.id 1 (p.1.sets.getD []) := by
  intro pairs
  induction pairs with
  | nil => intro _ p hp; cases hp
  | cons q rest ih =>
    intro hnd p hp
    simp only [List.map_cons, List.nodup_cons] at hnd
    have hfilter_app :
        (setRowsFor (q :: rest)).filter (fun r => r.exercise_id == p.2.id) =
          (numberSets q.2.id 1 (q.1.sets.getD [])).filter (fun r => r.exercise_id == p.2.id) ++
          (setRowsFor rest).filter (fun r => r.exercise_id == p.2.id) := by
      simp [setRowsFor, List.filter_append]
    rcases List.mem_cons.mp hp with h | h
    · subst h
      rw [hfilter_app]
      have h1 : (numberSets p.2.id 1 (p.1.sets.getD [])).filter
          (fun r => r.exercise_id == p.2.id) = numberSets p.2.id 1 (p.1.sets.getD []) := by
        apply List.filter_eq_self.mpr
        intro r hr
        simp [numberSets_mem_exercise_id p.2.id 1 _ r hr]
      have h2 : (setRowsFor rest).filter (fun r => r.exercise_id == p.2.id) = [] := by
        apply List.filter_eq_nil_iff.mpr
        intro r hr
        obtain ⟨w, hw, hwid⟩ := setRowsFor_mem_ids rest r hr
        simp only [beq_iff_eq, hwid]
        intro hc
        exact hnd.1 (by rw [← hc]; exact List.mem_map_of_mem (fun p => p.2.id) hw)
      rw [h1, h2, List.append_nil]
    · rw [hfilter_app]
      have h1 : (numberSets q.2.id 1 (q.1.sets.getD [])).filter
          (fun r => r.exercise_id == p.2.id) = [] := by
        apply List.filter_eq_nil_iff.mpr
        intro r hr
        have := numberSets_mem_exercise_id q.2.id 1 _ r hr
        simp only [beq_iff_eq, this]
        intro hc
        exact hnd.1 (by rw [hc]; exact List.mem_map_of_mem (fun p => p.2.id) h)
      rw [h1, ih hnd.2 p h, List.nil_append]

theorem setRowsFor_ne_nil : ∀ (exs : List InputExercise) (ins : List ExerciseRow),
    exs.length ≤ ins.length → (∃ ex ∈ exs, ex.sets.getD [] ≠ []) →
    setRowsFor (exs.zip ins) ≠ [] := by
  intro exs
  induction exs with
  | nil =>
    intro ins _ h
    obtain ⟨ex, hm, _⟩ := h
    cases hm
  | cons e es ih =>
    intro ins hlen h
    cases ins with
    | nil => simp at hlen
    | cons r rs =>
      simp only [List.zip_cons_cons, setRowsFor]
      rcases h with ⟨ex, hm, hne⟩
      rcases List.mem_cons.mp hm with hh | hh
      · subst hh
        intro hc
        rcases List.append_eq_nil.mp hc with ⟨h1, _⟩
        exact hne ((numberSets_eq_nil_iff _ _ _).mp h1)
      · intro hc
        rcases List.append_eq_nil.mp hc with ⟨_, h2⟩
        exact ih rs (by simpa using hlen) ⟨ex, hh, hne⟩ h2

/-! ## Claims C6 and C7 -/

theorem numberSets_values (exId : Int) :
    ∀ (l : List InputSet) (n : Int),
      (numberSets exId n l).map (fun r => (r.reps, r.weight_kg)) =
        l.map (fun s => (jsCoerce s.reps, jsCoerce s.weight_kg)) := by
  intro l
  induction l with
  | nil => intro n; rfl
  | cons s ss ih => intro n; simp [numberSets, ih]

theorem insertExercisesFrom_length (wid pos : Int) (exs : List InputExercise) (st : Store) :
    (insertExercisesFrom wid pos exs st).1.length = exs.length := by
  have h := (insertExercisesFrom_spec wid exs pos st).2.2.2.2.1
  have h2 := congrArg List.length h
  simpa [posNumbered_length] using h2

theorem postWorkouts_created_of_checked_ok (sch : PostSched) (uid : Int) (body : PostBody)
    (st : Store) (exs : List InputExercise)
    (hd : body.workout_date ≠ "") (hx : body.exercises = some exs)
    (h1 : sch.upErr = none) (h2 : sch.insExErr = none) (h3 : sch.insSetsErr = none) :
    ∃ wid st', postWorkouts sch uid body st = (.created wid, st') := by
  obtain ⟨u, f, ds, de, ie, isv⟩ := sch
  simp only at h1 h2 h3
  subst h1
  subst h2
  subst h3
  unfold postWorkouts
  rw [if_neg hd]
  simp only [hx]
  cases f <;> cases ds <;> cases de <;>
    · simp only []
      repeat' split
      all_goals exact ⟨_, _, rfl⟩

/-- Claim C6, counterexample: on a store holding one workout of user 7 with
one exercise and one set, a replace call whose old-exercise fetch fails at
the store is not aborted and not surfaced: the handler treats the failed
fetch as an empty id list, skips the set delete, carries on, and responds
with success — while the old set row is left behind in the store. -/
theorem c6_counterexample :
    (postWorkouts ⟨none, some "fetch failed", none, none, none, none⟩ 7
        ⟨"2024-01-01", none, none, some [⟨"New", some []⟩]⟩
        ⟨[⟨0, 7, "2024-01-01", none, none⟩], [⟨1, 0, "Old", 1⟩],
          [⟨2, 1, 1, some ⟨5, 1⟩, some ⟨50, 1⟩⟩], 3⟩).1 = .created 0 ∧
    (⟨2, 1, 1, some ⟨5, 1⟩, some ⟨50, 1⟩⟩ : SetRow) ∈
      (postWorkouts ⟨none, some "fetch failed", none, none, none, none⟩ 7
        ⟨"2024-01-01", none, none, some [⟨"New", some []⟩]⟩
        ⟨[⟨0, 7, "2024-01-01", none, none⟩], [⟨1, 0, "Old", 1⟩],
          [⟨2, 1, 1, some ⟨5, 1⟩, some ⟨50, 1⟩⟩], 3⟩).2.sets :=
  ⟨by decide, by decide⟩

/-- Claim C6, amended: of the six sequential store calls, only the three
whose results the source checks abort and surface the error as a 500: the
workout upsert (with the store unchanged), the exercise insert, and the set
insert (the latter only made when some input set exists).  Failures of the
old-exercise fetch and of the two deletes are silently ignored — the call
still responds with success. -/
theorem c6_failure_surfacing_amended (sch : PostSched) (uid : Int) (body : PostBody)
    (st : Store) (exs : List InputExercise)
    (hd : body.workout_date ≠ "") (hx : body.exercises = some exs) :
    (∀ e, sch.upErr = some e → postWorkouts sch uid body st = (.storeError e, st)) ∧
    (∀ e, sch.upErr = none → sch.insExErr = some e →
      ∃ st', postWorkouts sch uid body st = (.storeError e, st')) ∧
    (∀ e, sch.upErr = none → sch.insExErr = none → sch.insSetsErr = some e →
      (∃ ex ∈ exs, ex.sets.getD [] ≠ []) →
      ∃ st', postWorkouts sch uid body st = (.storeError e, st')) ∧
    (sch.upErr = none → sch.insExErr = none → sch.insSetsErr = none →
      ∃ wid st', postWorkouts sch uid body st = (.created wid, st')) := by
  obtain ⟨u, f, ds, de, ie, isv⟩ := sch
  refine ⟨?_, ?_, ?_, ?_⟩
  · intro e he
    simp only at he
    subst he
    unfold postWorkouts
    rw [if_neg hd]
    simp only [hx]
  · intro e h1 h2
    simp only at h1 h2
    subst h1
    subst h2
    unfold postWorkouts
    rw [if_neg hd]
    simp only [hx]
    exact ⟨_, rfl⟩
  · intro e h1 h2 h3 hne
    simp only at h1 h2 h3
    subst h1
    subst h2
    subst h3
    unfold postWorkouts
    rw [if_neg hd]
    simp only [hx]
    cases f <;> cases ds <;> cases de <;>
      · simp only []
        repeat' split
        all_goals first
          | exact ⟨_, rfl⟩
          | (exfalso
             rename_i hc
             exact setRowsFor_ne_nil exs _
               (le_of_eq (insertExercisesFrom_length _ _ _ _).symm) hne
               (List.isEmpty_iff.mp hc))
  · intro h1 h2 h3
    exact postWorkouts_created_of_checked_ok ⟨u, f, ds, de, ie, isv⟩ uid body st exs hd hx h1 h2 h3

theorem c6_failure_surfacing_amended_witness :
    (∀ e, (⟨none, some "f", some "g", some "h", none, none⟩ : PostSched).upErr = some e →
      postWorkouts ⟨none, some "f", some "g", some "h", none, none⟩ 7
        ⟨"2024-01-01", none, none, some [⟨"A", some [⟨.num ⟨1, 1⟩, .num ⟨2, 1⟩⟩]⟩]⟩
        ⟨[], [], [], 0⟩ = (.storeError e, ⟨[], [], [], 0⟩)) ∧
    (∀ e, (⟨none, some "f", some "g", some "h", none, none⟩ : PostSched).upErr = none →
      (⟨none, some "f", some "g", some "h", none, none⟩ : PostSched).insExErr = some e →
      ∃ st', postWorkouts ⟨none, some "f", some "g", some "h", none, none⟩ 7
        ⟨"2024-01-01", none, none, some [⟨"A", some [⟨.num ⟨1, 1⟩, .num ⟨2, 1⟩⟩]⟩]⟩
        ⟨[], [], [], 0⟩ = (.storeError e, st')) ∧
    (∀ e, (⟨none, some "f", some "g", some "h", none, none⟩ : PostSched).upErr = none →
      (⟨none, some "f", some "g", some "h", none, none⟩ : PostSched).insExErr = none →
      (⟨none, some "f", some "g", some "h", none, none⟩ : PostSched).insSetsErr = some e →
      (∃ ex ∈ [(⟨"A", some [⟨.num ⟨1, 1⟩, .num ⟨2, 1⟩⟩]⟩ : InputExercise)],
        ex.sets.getD [] ≠ []) →
      ∃ st', postWorkouts ⟨none, some "f", some "g", some "h", none, none⟩ 7
        ⟨"2024-01-01", none, none, some [⟨"A", some [⟨.num ⟨1, 1⟩, .num ⟨2, 1⟩⟩]⟩]⟩
        ⟨[], [], [], 0⟩ = (.storeError e, st')) ∧
    ((⟨none, some "f", some "g", some "h", none, none⟩ : PostSched).upErr = none →
      (⟨none, some "f", some "g", some "h", none, none⟩ : PostSched).insExErr = none →
      (⟨none, some "f", some "g", some "h", none, none⟩ : PostSched).insSetsErr = none →
      ∃ wid st', postWorkouts ⟨none, some "f", some "g", some "h", none, none⟩ 7
        ⟨"2024-01-01", none, none, some [⟨"A", some [⟨.num ⟨1, 1⟩, .num ⟨2, 1⟩⟩]⟩]⟩
        ⟨[], [], [], 0⟩ = (.created wid, st')) :=
  c6_failure_surfacing_amended ⟨none, some "f", some "g", some "h", none, none⟩ 7
    ⟨"2024-01-01", none, none, some [⟨"A", some [⟨.num ⟨1, 1⟩, .num ⟨2, 1⟩⟩]⟩]⟩
    ⟨[], [], [], 0⟩ [⟨"A", some [⟨.num ⟨1, 1⟩, .num ⟨2, 1⟩⟩]⟩]
    (by decide) (by decide)

/-- Claim C7, counterexample: a set entry whose `reps` is the non-numeric
string `abc` does not fail the call, but it is not persisted as `0`
either: the built row carries `Number("abc") = NaN` (modelled `none`),
which is not `0`. -/
theorem c7_counterexample :
    jsNumber "abc" = none ∧
    (postWorkouts noPostFail 7 ⟨"2024-01-01", none, none,
        some [⟨"Row", some [⟨.str "abc", .undef⟩]⟩]⟩ ⟨[], [], [], 0⟩).1 = .created 0 ∧
    ((postWorkouts noPostFail 7 ⟨"2024-01-01", none, none,
        some [⟨"Row", some [⟨.str "abc", .undef⟩]⟩]⟩ ⟨[], [], [], 0⟩).2).sets.map
      (fun s => s.reps) = [none] ∧
    (none : Option JsRat) ≠ some ⟨0, 1⟩ :=
  ⟨by decide, by decide, by decide, by decide⟩

/-- Claim C7, amended: a missing (`undefined` or `null`) `reps`/`weight_kg`
is persisted as `0`; booleans coerce to `0`/`1`, and string values coerce
through `Number`, so a non-numeric string is persisted as `NaN`, not `0`.
The built set rows carry exactly these coerced values, and the call itself
never fails at the coercion step: with the store calls succeeding, every
set-entry shape yields a success response. -/
theorem c7_set_coercion_amended (uid : Int) (body : PostBody) (st : Store)
    (exs : List InputExercise)
    (hd : body.workout_date ≠ "") (hx : body.exercises = some exs) :
    jsCoerce .undef = some ⟨0, 1⟩ ∧
    jsCoerce .null = some ⟨0, 1⟩ ∧
    (∀ b, jsCoerce (.bool b) = some (if b then ⟨1, 1⟩ else ⟨0, 1⟩)) ∧
    (∀ t, jsCoerce (.str t) = jsNumber t) ∧
    (∀ exId n l, (numberSets exId n l).map (fun r => (r.reps, r.weight_kg)) =
      l.map (fun s => (jsCoerce s.reps, jsCoerce s.weight_kg))) ∧
    (∃ wid st', postWorkouts noPostFail uid body st = (.created wid, st')) := by
  refine ⟨rfl, rfl, fun b => rfl, fun t => rfl,
    fun exId n l => numberSets_values exId l n, ?_⟩
  exact postWorkouts_created_of_checked_ok noPostFail uid body st exs hd hx rfl rfl rfl

theorem c7_set_coercion_amended_witness :
    jsCoerce .undef = some ⟨0, 1⟩ ∧
    jsCoerce .null = some ⟨0, 1⟩ ∧
    (∀ b, jsCoerce (.bool b) = some (if b then ⟨1, 1⟩ else ⟨0, 1⟩)) ∧
    (∀ t, jsCoerce (.str t) = jsNumber t) ∧
    (∀ exId n l, (numberSets exId n l).map (fun r => (r.reps, r.weight_kg)) =
      l.map (fun s => (jsCoerce s.reps, jsCoerce s.weight_kg))) ∧
    (∃ wid st', postWorkouts noPostFail 7
      ⟨"2024-01-01", none, none, some [⟨"Row", some [⟨.bool true, .str "7.5"⟩]⟩]⟩
      ⟨[], [], [], 0⟩ = (.created wid, st')) :=
  c7_set_coercion_amended 7
    ⟨"2024-01-01", none, none, some [⟨"Row", some [⟨.bool true, .str "7.5"⟩]⟩]⟩
    ⟨[], [], [], 0⟩ [⟨"Row", some [⟨.bool true, .str "7.5"⟩]⟩]
    (by decide) (by decide)

/-! ## Claim C8 -/

theorem querySets_sentinel (st : Store) (hwf : WF st) : querySets st [sentinelId] = [] := by
  obtain ⟨_, _, hexb, _, _, _, _, _, _, hsref⟩ := hwf
  unfold querySets
  have hfil : st.sets.filter (fun s => [sentinelId].contains s.exercise_id) = [] := by
    apply List.filter_eq_nil_iff.mpr
    intro s hs
    obtain ⟨e, he, heid⟩ := hsref s hs
    obtain ⟨he0, _⟩ := hexb e he
    simp only [List.contains_cons, List.contains_nil, Bool.or_false, beq_iff_eq, sentinelId]
    intro hc
    omega
  rw [hfil]
  rfl

/-- Claim C8: reading a `(user, date)` with no workout row responds with
JSON `null`, not an error; and when the workout exists with zero exercise
rows, the response is the workout with an empty `exercises` array, while
the set query is issued with the sentinel id, which matches no row of a
well-formed store — no set rows belonging to other exercises are read. -/
theorem c8_read_null_and_empty (st : Store) (uid : Int) (d : String)
    (hwf : WF st) (hd : d ≠ "") :
    (findWorkouts st uid d = [] → getWorkouts noGetFail uid (some d) st = .jsonNull) ∧
    (∀ w, findWorkouts st uid d = [w] →
      st.exercises.filter (fun e => e.workout_id == w.id) = [] →
      getWorkouts noGetFail uid (some d) st =
        .jsonView ⟨w.id, w.user_id, w.workout_date, w.title, w.notes, []⟩ ∧
      querySets st [sentinelId] = []) := by
  constructor
  · intro h
    unfold getWorkouts
    simp only [noGetFail, if_neg hd, h]
  · intro w hw hex
    have hq := querySets_sentinel st hwf
    refine ⟨?_, hq⟩
    unfold getWorkouts
    simp only [noGetFail, if_neg hd, hw, hex]
    simp [hq]

theorem c8_read_null_and_empty_witness :
    (findWorkouts ⟨[⟨0, 7, "2024-01-01", none, none⟩], [], [], 1⟩ 7 "2024-02-02" = [] →
      getWorkouts noGetFail 7 (some "2024-02-02")
        ⟨[⟨0, 7, "2024-01-01", none, none⟩], [], [], 1⟩ = .jsonNull) ∧
    (∀ w, findWorkouts ⟨[⟨0, 7, "2024-01-01", none, none⟩], [], [], 1⟩ 7 "2024-02-02" = [w] →
      (⟨[⟨0, 7, "2024-01-01", none, none⟩], [], [], 1⟩ : Store).exercises.filter
        (fun e => e.workout_id == w.id) = [] →
      getWorkouts noGetFail 7 (some "2024-02-02")
        ⟨[⟨0, 7, "2024-01-01", none, none⟩], [], [], 1⟩ =
        .jsonView ⟨w.id, w.user_id, w.workout_date, w.title, w.notes, []⟩ ∧
      querySets ⟨[⟨0, 7, "2024-01-01", none, none⟩], [], [], 1⟩ [sentinelId] = []) :=
  c8_read_null_and_empty ⟨[⟨0, 7, "2024-01-01", none, none⟩], [], [], 1⟩ 7 "2024-02-02"
    (by decide) (by decide)

/-! ## Upsert structure lemmas -/

theorem find?_upsert (uid : Int) (d : String) (t n : Option String) :
    ∀ (l : List WorkoutRow) (w0 : WorkoutRow),
      l.find? (fun x => x.user_id == uid && x.workout_date == d) = some w0 →
      (l.map (fun x => if x.user_id == uid && x.workout_date == d
          then (⟨w0.id, w0.user_id, w0.workout_date, t, n⟩ : WorkoutRow) else x)).find?
          (fun x => x.user_id == uid && x.workout_date == d) =
        some ⟨w0.id, w0.user_id, w0.workout_date, t, n⟩ := by
  intro l w0 h
  have hw0 : (w0.user_id == uid && w0.workout_date == d) = true := by
    have hx := List.find?_some h
    exact hx
  rw [List.find?_map]
  have hfun : ((fun x : WorkoutRow => x.user_id == uid && x.workout_date == d) ∘
      (fun x => if x.user_id == uid && x.workout_date == d
        then (⟨w0.id, w0.user_id, w0.workout_date, t, n⟩ : WorkoutRow) else x)) =
      (fun x : WorkoutRow => x.user_id == uid && x.workout_date == d) := by
    funext y
    by_cases hp : (y.user_id == uid && y.workout_date == d) = true
    · simp only [Function.comp_apply, if_pos hp]
      rw [hp]
      exact hw0
    · simp only [Function.comp_apply, if_neg hp]
  rw [hfun, h]
  simp only [Option.map, if_pos hw0]

theorem upsertWorkout_find (uid : Int) (d : String) (t n : Option String) (st : Store) :
    (upsertWorkout uid d t n st).2.workouts.find?
        (fun x => x.user_id == uid && x.workout_date == d) =
      some (upsertWorkout uid d t n st).1 := by
  unfold upsertWorkout
  cases h : st.workouts.find? (fun x => x.user_id == uid && x.workout_date == d) with
  | some w0 =>
    simp only [h]
    exact find?_upsert uid d t n st.workouts w0 h
  | none =>
    simp only [h]
    rw [List.find?_append, h]
    simp

theorem upsertWorkout_mem_self (uid : Int) (d : String) (t n : Option String) (st : Store) :
    (upsertWorkout uid d t n st).1 ∈ (upsertWorkout uid d t n st).2.workouts :=
  List.mem_of_find?_eq_some (upsertWorkout_find uid d t n st)

theorem upsertWorkout_bounds (uid : Int) (d : String) (t n : Option String) (st : Store)
    (hn : 0 ≤ st.nextId) (hb : ∀ w ∈ st.workouts, 0 ≤ w.id ∧ w.id < st.nextId) :
    ∀ x ∈ (upsertWorkout uid d t n st).2.workouts,
      0 ≤ x.id ∧ x.id < (upsertWorkout uid d t n st).2.nextId := by
  unfold upsertWorkout
  cases h : st.workouts.find? (fun x => x.user_id == uid && x.workout_date == d) with
  | some w0 =>
    simp only [h]
    intro x hx
    obtain ⟨y, hy, hye⟩ := List.mem_map.mp hx
    have hw0 : w0 ∈ st.workouts := List.mem_of_find?_eq_some h
    by_cases hp : (y.user_id == uid && y.workout_date == d) = true
    · rw [if_pos hp] at hye
      subst hye
      simpa using hb w0 hw0
    · rw [if_neg hp] at hye
      subst hye
      simpa using hb y hy
  | none =>
    simp only [h]
    intro x hx
    rcases List.mem_append.mp hx with h1 | h1
    · have := hb x h1
      refine ⟨this.1, ?_⟩
      show x.id < st.nextId + 1
      omega
    · rcases List.mem_singleton.mp h1 with rfl
      show 0 ≤ st.nextId ∧ st.nextId < st.nextId + 1
      omega

theorem upsertWorkout_map_congr (uid : Int) (d : String) (t n : Option String)
    (st : Store) (w0 : WorkoutRow)
    (hud : (st.workouts.map (fun w => (w.user_id, w.workout_date))).Nodup)
    (h : st.workouts.find? (fun x => x.user_id == uid && x.workout_date == d) = some w0) :
    ∀ x ∈ st.workouts,
      (if x.user_id == uid && x.workout_date == d
        then (⟨w0.id, w0.user_id, w0.workout_date, t, n⟩ : WorkoutRow) else x).id = x.id ∧
      (if x.user_id == uid && x.workout_date == d
        then (⟨w0.id, w0.user_id, w0.workout_date, t, n⟩ : WorkoutRow) else x).user_id =
        x.user_id ∧
      (if x.user_id == uid && x.workout_date == d
        then (⟨w0.id, w0.user_id, w0.workout_date, t, n⟩ : WorkoutRow) else x).workout_date =
        x.workout_date := by
  intro x hx
  by_cases hp : (x.user_id == uid && x.workout_date == d) = true
  · have hw0 : w0 ∈ st.workouts := List.mem_of_find?_eq_some h
    have hpw0 := List.find?_some h
    simp only [Bool.and_eq_true, beq_iff_eq] at hp hpw0
    have hxw0 : x = w0 := by
      apply List.inj_on_of_nodup_map hud hx hw0
      simp [hp.1, hp.2, hpw0.1, hpw0.2]
    subst hxw0
    simp [hp.1, hp.2]
  · rw [if_neg hp]
    exact ⟨rfl, rfl, rfl⟩

theorem upsertWorkout_ids_nodup (uid : Int) (d : String) (t n : Option String) (st : Store)
    (hwf : WF st) :
    ((upsertWorkout uid d t n st).2.workouts.map (fun w => w.id)).Nodup := by
  obtain ⟨hn, hwb, _, _, hwnd, _, _, hud, _, _⟩ := hwf
  unfold upsertWorkout
  cases h : st.workouts.find? (fun x => x.user_id == uid && x.workout_date == d) with
  | some w0 =>
    simp only [h, List.map_map]
    have : st.workouts.map
        ((fun w => w.id) ∘ (fun x => if x.user_id == uid && x.workout_date == d
          then (⟨w0.id, w0.user_id, w0.workout_date, t, n⟩ : WorkoutRow) else x)) =
        st.workouts.map (fun w => w.id) := by
      apply List.map_congr_left
      intro x hx
      exact (upsertWorkout_map_congr uid d t n st w0 hud h x hx).1
    rw [this]
    exact hwnd
  | none =>
    simp only [h, List.map_append]
    apply List.Nodup.append hwnd (by simp)
    intro a ha hb
    simp only [List.map_cons, List.map_nil, List.mem_singleton] at hb
    obtain ⟨y, hy, hye⟩ := List.mem_map.mp ha
    have := hwb y hy
    have hb2 : a = st.nextId := hb
    omega

theorem upsertWorkout_userdate_nodup (uid : Int) (d : String) (t n : Option String)
    (st : Store) (hwf : WF st) :
    ((upsertWorkout uid d t n st).2.workouts.map
      (fun w => (w.user_id, w.workout_date))).Nodup := by
  obtain ⟨_, _, _, _, _, _, _, hud, _, _⟩ := hwf
  unfold upsertWorkout
  cases h : st.workouts.find? (fun x => x.user_id == uid && x.workout_date == d) with
  | some w0 =>
    simp only [h, List.map_map]
    have : st.workouts.map
        ((fun w => (w.user_id, w.workout_date)) ∘
          (fun x => if x.user_id == uid && x.workout_date == d
            then (⟨w0.id, w0.user_id, w0.workout_date, t, n⟩ : WorkoutRow) else x)) =
        st.workouts.map (fun w => (w.user_id, w.workout_date)) := by
      apply List.map_congr_left
      intro x hx
      obtain ⟨_, h2, h3⟩ := upsertWorkout_map_congr uid d t n st w0 hud h x hx
      simp only [Function.comp_apply]
      rw [h2, h3]
    rw [this]
    exact hud
  | none =>
    simp only [h, List.map_append]
    apply List.Nodup.append hud (by simp)
    intro a ha hb
    simp only [List.map_cons, List.map_nil, List.mem_singleton] at hb
    subst hb
    obtain ⟨y, hy, hye⟩ := List.mem_map.mp ha
    have hall := List.find?_eq_none.mp h y hy
    simp only [Bool.and_eq_true, beq_iff_eq] at hall
    apply hall
    constructor
    · exact congrArg Prod.fst hye
    · exact congrArg Prod.snd hye

theorem upsertWorkout_owner (uid : Int) (d : String) (t n : Option String) (st : Store)
    (hwf : WF st) :
    ∀ x ∈ (upsertWorkout uid d t n st).2.workouts,
      x.id = (upsertWorkout uid d t n st).1.id → x.user_id = uid := by
  intro x hx hid
  have hnd := upsertWorkout_ids_nodup uid d t n st hwf
  have hself := upsertWorkout_mem_self uid d t n st
  have hx2 : x = (upsertWorkout uid d t n st).1 :=
    List.inj_on_of_nodup_map hnd hx hself hid
  rw [hx2]
  exact (upsertWorkout_row uid d t n st).1

theorem upsertWorkout_foreign (uid : Int) (d : String) (t n : Option String) (st : Store)
    (hwf : WF st) (x : WorkoutRow) (hx : x.user_id ≠ uid) :
    x ∈ (upsertWorkout uid d t n st).2.workouts ↔ x ∈ st.workouts := by
  obtain ⟨_, _, _, _, _, _, _, hud, _, _⟩ := hwf
  unfold upsertWorkout
  cases h : st.workouts.find? (fun w => w.user_id == uid && w.workout_date == d) with
  | some w0 =>
    simp only [h]
    have hmaps : st.workouts.map (fun y => if y.user_id == uid && y.workout_date == d
        then (⟨w0.id, w0.user_id, w0.workout_date, t, n⟩ : WorkoutRow) else y) =
        st.workouts.map (fun y => if y.user_id == uid && y.workout_date == d
          then (⟨w0.id, w0.user_id, w0.workout_date, t, n⟩ : WorkoutRow) else y) := rfl
    constructor
    · intro hm
      obtain ⟨y, hy, hye⟩ := List.mem_map.mp hm
      by_cases hp : (y.user_id == uid && y.workout_date == d) = true
      · rw [if_pos hp] at hye
        exfalso
        apply hx
        have hpw0 := List.find?_some h
        simp only [Bool.and_eq_true, beq_iff_eq] at hpw0
        rw [← hye]
        exact hpw0.1
      · rw [if_neg hp] at hye
        rw [← hye]
        exact hy
    · intro hm
      apply List.mem_map.mpr
      refine ⟨x, hm, ?_⟩
      have hp : ¬ (x.user_id == uid && x.workout_date == d) = true := by
        simp only [Bool.and_eq_true, beq_iff_eq]
        intro hc
        exact hx hc.1
      rw [if_neg hp]
  | none =>
    simp only [h]
    constructor
    · intro hm
      rcases List.mem_append.mp hm with h1 | h1
      · exact h1
      · exfalso
        rcases List.mem_singleton.mp h1 with rfl
        exact hx rfl
    · intro hm
      exact List.mem_append_left _ hm

/-! ## Grouping lemmas for the read handler -/

theorem mem_lookupGroup_push (m : List (Int × List SetRow)) (x : SetRow) (k : Int) :
    ∀ s ∈ lookupGroup (pushGroup m x) k, s ∈ lookupGroup m k ∨ s = x := by
  induction m with
  | nil =>
    intro s hs
    simp only [pushGroup, lookupGroup] at hs
    by_cases hk : x.exercise_id = k
    · rw [if_pos hk] at hs
      right
      simpa using hs
    · rw [if_neg hk] at hs
      simp [lookupGroup] at hs
  | cons p rest ih =>
    intro s hs
    obtain ⟨k', v⟩ := p
    simp only [pushGroup] at hs
    by_cases hkx : k' = x.exercise_id
    · rw [if_pos hkx] at hs
      simp only [lookupGroup] at hs ⊢
      by_cases hk : k' = k
      · rw [if_pos hk] at hs ⊢
        rcases List.mem_append.mp hs with h | h
        · exact Or.inl h
        · right
          simpa using h
      · rw [if_neg hk] at hs ⊢
        exact Or.inl hs
    · rw [if_neg hkx] at hs
      simp only [lookupGroup] at hs ⊢
      by_cases hk : k' = k
      · rw [if_pos hk] at hs ⊢
        exact Or.inl hs
      · rw [if_neg hk] at hs ⊢
        exact ih s hs

theorem lookupGroup_exid : ∀ (m : List (Int × List SetRow)),
    (∀ p ∈ m, ∀ s ∈ p.2, s.exercise_id = p.1) →
    ∀ k, ∀ s ∈ lookupGroup m k, s.exercise_id = k := by
  intro m
  induction m with
  | nil =>
    intro _ k s hs
    simp [lookupGroup] at hs
  | cons p rest ih =>
    intro hm k s hs
    obtain ⟨k', v⟩ := p
    simp only [lookupGroup] at hs
    by_cases hk : k' = k
    · rw [if_pos hk] at hs
      have := hm (k', v) (List.mem_cons_self _ _) s hs
      rw [← hk]
      exact this
    · rw [if_neg hk] at hs
      exact ih (fun q hq => hm q (List.mem_cons_of_mem _ hq)) k s hs

theorem pushGroup_coherent : ∀ (m : List (Int × List SetRow)) (x : SetRow),
    (∀ p ∈ m, ∀ s ∈ p.2, s.exercise_id = p.1) →
    ∀ p ∈ pushGroup m x, ∀ s ∈ p.2, s.exercise_id = p.1 := by
  intro m
  induction m with
  | nil =>
    intro x _ p hp s hs
    simp only [pushGroup, List.mem_singleton] at hp
    subst hp
    simp only [List.mem_singleton] at hs
    subst hs
    rfl
  | cons q rest ih =>
    intro x hm p hp s hs
    obtain ⟨k', v⟩ := q
    simp only [pushGroup] at hp
    by_cases hkx : k' = x.exercise_id
    · rw [if_pos hkx] at hp
      rcases List.mem_cons.mp hp with h | h
      · subst h
        rcases List.mem_append.mp hs with h1 | h1
        · exact hm (k', v) (List.mem_cons_self _ _) s h1
        · simp only [List.mem_singleton] at h1
          subst h1
          exact hkx.symm
      · exact hm p (List.mem_cons_of_mem _ h) s hs
    · rw [if_neg hkx] at hp
      rcases List.mem_cons.mp hp with h | h
      · subst h
        exact hm (k', v) (List.mem_cons_self _ _) s hs
      · exact ih x (fun q2 hq2 => hm q2 (List.mem_cons_of_mem _ hq2)) p h s hs

theorem groupSets_facts : ∀ (l : List SetRow) (m : List (Int × List SetRow)),
    (∀ p ∈ m, ∀ s ∈ p.2, s.exercise_id = p.1) →
    (∀ p ∈ l.foldl pushGroup m, ∀ s ∈ p.2, s.exercise_id = p.1) ∧
    (∀ k, ∀ s ∈ lookupGroup (l.foldl pushGroup m) k, s ∈ lookupGroup m k ∨ s ∈ l) := by
  intro l
  induction l with
  | nil =>
    intro m hm
    exact ⟨hm, fun k s hs => Or.inl hs⟩
  | cons x xs ih =>
    intro m hm
    have hm2 := pushGroup_coherent m x hm
    obtain ⟨hc, hl⟩ := ih (pushGroup m x) hm2
    refine ⟨hc, ?_⟩
    intro k s hs
    rcases hl k s hs with h | h
    · rcases mem_lookupGroup_push m x k s h with h2 | h2
      · exact Or.inl h2
      · right
        rw [h2]
        exact List.mem_cons_self x xs
    · exact Or.inr (List.mem_cons_of_mem x h)

theorem mem_lookupGroup_groupSets (l : List SetRow) (k : Int) :
    ∀ s ∈ lookupGroup (groupSets l) k, s ∈ l ∧ s.exercise_id = k := by
  intro s hs
  have h := groupSets_facts l [] (by intro p hp; cases hp)
  constructor
  · rcases h.2 k s hs with h1 | h1
    · simp [lookupGroup] at h1
    · exact h1
  · exact lookupGroup_exid (groupSets l) h.1 k s hs

theorem mem_querySets (st : Store) (qIds : List Int) :
    ∀ s ∈ querySets st qIds, s ∈ st.sets := by
  intro s hs
  unfold querySets at hs
  have hperm := List.perm_insertionSort setNoLe
    (st.sets.filter (fun s => qIds.contains s.exercise_id))
  exact List.mem_of_mem_filter (hperm.mem_iff.mp hs)

theorem getWorkouts_owner (sch : GetSched) (uid : Int) (date : Option String) (st : Store)
    (v : WorkoutView) (h : getWorkouts sch uid date st = .jsonView v) :
    v.user_id = uid ∧
    (∃ w ∈ st.workouts, w.user_id = uid ∧ w.id = v.id) ∧
    ∀ ev ∈ v.exercises,
      (∃ e ∈ st.exercises, e.id = ev.id ∧ e.workout_id = v.id) ∧
      ∀ s ∈ ev.sets, s ∈ st.sets ∧ s.exercise_id = ev.id := by
  unfold getWorkouts at h
  split at h
  · exact GetResult.noConfusion h
  · rename_i d
    split at h
    · exact GetResult.noConfusion h
    · split at h
      · exact GetResult.noConfusion h
      · split at h
        · exact GetResult.noConfusion h
        · rename_i w hfw
          split at h
          · exact GetResult.noConfusion h
          · split at h
            · exact GetResult.noConfusion h
            · injection h with hv
              subst hv
              have hwmem : w ∈ findWorkouts st uid d := by
                rw [hfw]
                exact List.mem_singleton_self w
              unfold findWorkouts at hwmem
              have hw1 := List.mem_of_mem_filter hwmem
              have hw2 := List.of_mem_filter hwmem
              simp only [Bool.and_eq_true, beq_iff_eq] at hw2
              refine ⟨hw2.1, ⟨w, hw1, hw2.1, rfl⟩, ?_⟩
              intro ev hev
              obtain ⟨e, he, hee⟩ := List.mem_map.mp hev
              have hesort : e ∈ st.exercises.filter (fun x => x.workout_id == w.id) :=
                (List.perm_insertionSort posLe _).mem_iff.mp he
              have he1 := List.mem_of_mem_filter hesort
              have he2 := List.of_mem_filter hesort
              simp only [beq_iff_eq] at he2
              constructor
              · refine ⟨e, he1, ?_, he2⟩
                rw [← hee]
              · intro s hs
                rw [← hee] at hs
                have hmem := mem_lookupGroup_groupSets _ e.id s hs
                refine ⟨mem_querySets st _ s hmem.1, ?_⟩
                rw [← hee]
                exact hmem.2
        · exact GetResult.noConfusion h

/-! ## Claim C9 -/

theorem postFrame_refl (st : Store) (uid : Int) : PostFrame st st uid :=
  ⟨fun _ _ => Iff.rfl, fun _ he _ => he, fun _ he hne => absurd he hne,
   fun _ hs _ => hs, fun _ hs hns => absurd hs hns⟩

theorem postWorkouts_frame (sch : PostSched) (uid : Int) (body : PostBody) (st : Store)
    (hwf : WF st) : PostFrame st (postWorkouts sch uid body st).2 uid := by
  obtain ⟨u, f, ds, de, ie, isv⟩ := sch
  unfold postWorkouts
  split
  · exact postFrame_refl st uid
  · split
    · exact postFrame_refl st uid
    · rename_i exs hbx
      cases u with
      | some e => exact postFrame_refl st uid
      | none =>
        simp only []
        set w := (upsertWorkout uid body.workout_date body.title body.notes st).1 with hw
        set st1 := (upsertWorkout uid body.workout_date body.title body.notes st).2 with hst1
        set oldIds := (match f with
          | some _ => ([] : List Int)
          | none => (st1.exercises.filter (fun e : ExerciseRow => e.workout_id == w.id)).map
              (fun e : ExerciseRow => e.id))
          with holdIds
        set st2 := (if oldIds.isEmpty then st1 else
          match ds with
          | some _ => st1
          | none => { st1 with sets := st1.sets.filter (fun s => ¬ oldIds.contains s.exercise_id) })
          with hst2
        set st3 := (match de with
          | some _ => st2
          | none => { st2 with exercises := st2.exercises.filter (fun e => ¬ (e.workout_id == w.id)) })
          with hst3
        obtain ⟨hn0, hwb, heb, hsb, hwnd, hend, hsnd, hudnd, heref, hsref⟩ := id hwf
        have hwfacts := upsertWorkout_foreign uid body.workout_date body.title body.notes st hwf
        have howner := upsertWorkout_owner uid body.workout_date body.title body.notes st hwf
        have h1e : st1.exercises = st.exercises :=
          upsertWorkout_exercises uid body.workout_date body.title body.notes st
        have h1s : st1.sets = st.sets :=
          upsertWorkout_sets uid body.workout_date body.title body.notes st
        have h1n : st.nextId ≤ st1.nextId :=
          (upsertWorkout_nextId uid body.workout_date body.title body.notes st).1
        have hOld : ∀ i ∈ oldIds, ∃ e ∈ st.exercises, e.id = i ∧ e.workout_id = w.id := by
          rw [holdIds]
          cases f with
          | some e => exact fun i hi => absurd (show i ∈ ([] : List Int) from hi) (by simp)
          | none =>
            intro i hi
            replace hi : i ∈ (st1.exercises.filter
                (fun e => e.workout_id == w.id)).map (fun e => e.id) := hi
            obtain ⟨e, he, heid⟩ := List.mem_map.mp hi
            have he2 := List.mem_of_mem_filter he
            have he3 := List.of_mem_filter he
            simp only [beq_iff_eq] at he3
            rw [h1e] at he2
            exact ⟨e, he2, heid, he3⟩
        have hforeign_ex : ∀ e ∈ st.exercises, ForeignEx st uid e → ¬ e.workout_id = w.id := by
          intro e he hfe hc
          obtain ⟨w', hw', hwid, hne⟩ := hfe
          have hw'1 : w' ∈ st1.workouts := (hwfacts w' hne).mpr hw'
          exact hne (howner w' hw'1 (by rw [hwid, hc]))
        have h2w : st2.workouts = st1.workouts := by
          rw [hst2]
          split
          · rfl
          · cases ds <;> rfl
        have h2e : st2.exercises = st1.exercises := by
          rw [hst2]
          split
          · rfl
          · cases ds <;> rfl
        have h2n : st2.nextId = st1.nextId := by
          rw [hst2]
          split
          · rfl
          · cases ds <;> rfl
        have h2s_sub : ∀ s ∈ st2.sets, s ∈ st.sets := by
          rw [hst2]
          split
          · intro s hs
            rwa [h1s] at hs
          · cases ds with
            | some _ =>
              intro s hs
              rwa [h1s] at hs
            | none =>
              intro s hs
              have := List.mem_of_mem_filter hs
              rwa [h1s] at this
        have h2s_keep : ∀ s ∈ st.sets, ForeignSet st uid s → s ∈ st2.sets := by
          rw [hst2]
          split
          · intro s hs _
            rwa [h1s]
          · cases ds with
            | some _ =>
              intro s hs _
              rwa [h1s]
            | none =>
              intro s hs hfs
              show s ∈ st1.sets.filter (fun s => ¬ oldIds.contains s.exercise_id)
              apply List.mem_filter.mpr
              refine ⟨by rwa [h1s], ?_⟩
              simp only [decide_eq_true_eq]
              intro hc
              have hmemi : s.exercise_id ∈ oldIds := by simpa using hc
              obtain ⟨e', he', heid', hwid'⟩ := hOld s.exercise_id hmemi
              obtain ⟨e, he, heid, hfe⟩ := hfs
              have hee : e = e' := List.inj_on_of_nodup_map hend he he' (by rw [heid, heid'])
              exact hforeign_ex e he hfe (by rw [hee]; exact hwid')
        have h3w : st3.workouts = st1.workouts := by
          rw [hst3]
          cases de <;> exact h2w
        have h3s : st3.sets = st2.sets := by
          rw [hst3]
          cases de <;> rfl
        have h3n : st3.nextId = st1.nextId := by
          rw [hst3]
          cases de <;> exact h2n
        have h3e_sub : ∀ e ∈ st3.exercises, e ∈ st.exercises := by
          rw [hst3]
          cases de with
          | some _ =>
            intro e he
            rw [h2e, h1e] at he
            exact he
          | none =>
            intro e he
            have := List.mem_of_mem_filter he
            rwa [h2e, h1e] at this
        have h3e_keep : ∀ e ∈ st.exercises, ForeignEx st uid e → e ∈ st3.exercises := by
          rw [hst3]
          cases de with
          | some _ =>
            intro e he hfe
            rw [h2e, h1e]
            exact he
          | none =>
            intro e he hfe
            apply List.mem_filter.mpr
            refine ⟨by rw [h2e, h1e]; exact he, ?_⟩
            simp only [decide_eq_true_eq]
            simp only [beq_iff_eq]
            exact hforeign_ex e he hfe
        have hframe3 : PostFrame st st3 uid := by
          refine ⟨?_, h3e_keep, ?_, ?_, ?_⟩
          · intro x hx
            rw [h3w]
            exact hwfacts x hx
          · intro e he hne
            exact absurd (h3e_sub e he) hne
          · intro s hs hfs
            rw [h3s]
            exact h2s_keep s hs hfs
          · intro s hs hns
            rw [h3s] at hs
            exact absurd (h2s_sub s hs) hns
        cases ie with
        | some e => exact hframe3
        | none =>
          simp only []
          set insEx := (insertExercisesFrom w.id 1 exs st3).1 with hinsEx
          set st4 := (insertExercisesFrom w.id 1 exs st3).2 with hst4
          have hspec := insertExercisesFrom_spec w.id exs 1 st3
          have h4w : st4.workouts = st3.workouts := hspec.1
          have h4s : st4.sets = st3.sets := hspec.2.1
          have h4e : st4.exercises = st3.exercises ++ insEx := hspec.2.2.1
          have h4rows := hspec.2.2.2.2.2.1
          have hframe4 : PostFrame st st4 uid := by
            refine ⟨?_, ?_, ?_, ?_, ?_⟩
            · intro x hx
              rw [h4w, h3w]
              exact hwfacts x hx
            · intro e he hfe
              rw [h4e]
              exact List.mem_append_left _ (h3e_keep e he hfe)
            · intro e he hne hc
              obtain ⟨w', hw', hwid, hneq⟩ := hc
              rw [h4w, h3w] at hw'
              rw [h4e] at he
              rcases List.mem_append.mp he with h | h
              · exact hne (h3e_sub e h)
              · exact hneq (howner w' hw' (by rw [hwid, (h4rows e h).1]))
            · intro s hs hfs
              rw [h4s, h3s]
              exact h2s_keep s hs hfs
            · intro s hs hns
              rw [h4s, h3s] at hs
              exact absurd (h2s_sub s hs) hns
          split
          · exact hframe4
          · cases isv with
            | some e => exact hframe4
            | none =>
              show PostFrame st (insertSets (setRowsFor (exs.zip insEx)) st4) uid
              obtain ⟨h5w, h5e, h5n, newRows, h5s, hproj, hbounds, hpair⟩ :=
                insertSets_spec (setRowsFor (exs.zip insEx)) st4
              refine ⟨?_, ?_, ?_, ?_, ?_⟩
              · intro x hx
                rw [h5w, h4w, h3w]
                exact hwfacts x hx
              · intro e he hfe
                rw [h5e, h4e]
                exact List.mem_append_left _ (h3e_keep e he hfe)
              · intro e he hne hc
                obtain ⟨w', hw', hwid, hneq⟩ := hc
                rw [h5w, h4w, h3w] at hw'
                rw [h5e, h4e] at he
                rcases List.mem_append.mp he with h | h
                · exact hne (h3e_sub e h)
                · exact hneq (howner w' hw' (by rw [hwid, (h4rows e h).1]))
              · intro s hs hfs
                rw [h5s]
                apply List.mem_append_left
                rw [h4s, h3s]
                exact h2s_keep s hs hfs
              · intro s hs hns hc
                obtain ⟨e, he, heid, hfe⟩ := hc
                rw [h5s] at hs
                rcases List.mem_append.mp hs with h | h
                · rw [h4s, h3s] at h
                  exact hns (h2s_sub s h)
                · have htup : (s.exercise_id, s.set_no, s.reps, s.weight_kg) ∈
                      newRows.map (fun r => (r.exercise_id, r.set_no, r.reps, r.weight_kg)) :=
                    List.mem_map_of_mem _ h
                  rw [hproj] at htup
                  obtain ⟨r, hr, hrproj⟩ := List.mem_map.mp htup
                  have hre : r.exercise_id = s.exercise_id :=
                    congrArg (fun t : Int × Int × Option JsRat × Option JsRat => t.1) hrproj
                  obtain ⟨p, hp, hpid⟩ := setRowsFor_mem_ids _ r hr
                  have hpins : p.2 ∈ insEx := (List.of_mem_zip hp).2
                  have hfresh := (h4rows p.2 hpins).2.1
                  rw [h5e, h4e] at he
                  rcases List.mem_append.mp he with h2 | h2
                  · have hlt := (heb e (h3e_sub e h2)).2
                    omega
                  · obtain ⟨w', hw', hwid, hneq⟩ := hfe
                    rw [h5w, h4w, h3w] at hw'
                    exact hneq (howner w' hw' (by rw [hwid, (h4rows e h2).1]))


/-- Claim C9: tenant isolation. Every row the read path returns belongs to
the authenticated user: a served view carries the caller's id, its workout
row is a store row of that user, its exercise entries come from store
exercise rows of that workout, and every served set row is a store set row
of the served exercise. And for every failure schedule, the replace path
preserves every other user's workout rows exactly, never deletes an
exercise or set row foreign to the caller, and never creates one. -/
theorem c9_tenant_isolation (uid : Int) (st : Store) (hwf : WF st) :
    (∀ (sch : GetSched) (date : Option String) (v : WorkoutView),
      getWorkouts sch uid date st = .jsonView v →
      v.user_id = uid ∧
      (∃ w ∈ st.workouts, w.user_id = uid ∧ w.id = v.id) ∧
      ∀ ev ∈ v.exercises,
        (∃ e ∈ st.exercises, e.id = ev.id ∧ e.workout_id = v.id) ∧
        ∀ s ∈ ev.sets, s ∈ st.sets ∧ s.exercise_id = ev.id) ∧
    (∀ (sch : PostSched) (body : PostBody),
      PostFrame st (postWorkouts sch uid body st).2 uid) := by
  constructor
  · intro sch date v h
    exact getWorkouts_owner sch uid date st v h
  · intro sch body
    exact postWorkouts_frame sch uid body st hwf

/-- Witness for C9 at a concrete one-workout store. -/
theorem c9_tenant_isolation_witness :
    WF (⟨[⟨0, 7, "2024-01-01", none, none⟩], [], [], 1⟩ : Store) ∧
    PostFrame (⟨[⟨0, 7, "2024-01-01", none, none⟩], [], [], 1⟩ : Store)
      (postWorkouts noPostFail 7 ⟨"2024-01-02", none, none, some []⟩
        (⟨[⟨0, 7, "2024-01-01", none, none⟩], [], [], 1⟩ : Store)).2 7 :=
  ⟨by decide, (c9_tenant_isolation 7 _ (by decide)).2 noPostFail _⟩

/-! ## Claim C5 -/

theorem filter_map_of_proj_eq : ∀ (l1 : List SetRow) (l2 : List NewSetRow),
    l1.map (fun s => (s.exercise_id, s.set_no, s.reps, s.weight_kg)) =
      l2.map (fun r => (r.exercise_id, r.set_no, r.reps, r.weight_kg)) →
    ∀ k : Int,
    (l1.filter (fun s => s.exercise_id == k)).map (fun s => (s.set_no, s.reps, s.weight_kg)) =
      (l2.filter (fun r => r.exercise_id == k)).map
        (fun r => (r.set_no, r.reps, r.weight_kg)) := by
  intro l1
  induction l1 with
  | nil =>
    intro l2 h k
    cases l2 with
    | nil => rfl
    | cons r rs => exact List.noConfusion h
  | cons s ss ih =>
    intro l2 h k
    cases l2 with
    | nil => exact List.noConfusion h
    | cons r rs =>
      simp only [List.map_cons] at h
      injection h with h1 h2
      have hid : s.exercise_id = r.exercise_id :=
        congrArg (fun t : Int × Int × Option JsRat × Option JsRat => t.1) h1
      have hrest : (s.set_no, s.reps, s.weight_kg) = (r.set_no, r.reps, r.weight_kg) :=
        congrArg (fun t : Int × Int × Option JsRat × Option JsRat => t.2) h1
      simp only [List.filter_cons]
      rw [hid]
      by_cases hk : (r.exercise_id == k) = true
      · rw [if_pos hk, if_pos hk]
        simp only [List.map_cons]
        rw [hrest, ih rs h2 k]
      · rw [if_neg hk, if_neg hk]
        exact ih rs h2 k

theorem upsertWorkout_ids_cover (uid : Int) (d : String) (t n : Option String) (st : Store)
    (hwf : WF st) :
    ∀ w2 ∈ st.workouts, ∃ w3 ∈ (upsertWorkout uid d t n st).2.workouts, w3.id = w2.id := by
  obtain ⟨_, _, _, _, _, _, _, hud, _, _⟩ := hwf
  unfold upsertWorkout
  cases h : st.workouts.find? (fun x => x.user_id == uid && x.workout_date == d) with
  | some w0 =>
    simp only [h]
    intro w2 hw2
    refine ⟨(if w2.user_id == uid && w2.workout_date == d
      then (⟨w0.id, w0.user_id, w0.workout_date, t, n⟩ : WorkoutRow) else w2),
      List.mem_map_of_mem _ hw2, ?_⟩
    exact (upsertWorkout_map_congr uid d t n st w0 hud h w2 hw2).1
  | none =>
    simp only [h]
    intro w2 hw2
    exact ⟨w2, List.mem_append_left _ hw2, rfl⟩

theorem upsertWorkout_id_of_find (uid : Int) (d : String) (t n : Option String) (st : Store)
    (w0 : WorkoutRow)
    (h : st.workouts.find? (fun x => x.user_id == uid && x.workout_date == d) = some w0) :
    (upsertWorkout uid d t n st).1.id = w0.id := by
  unfold upsertWorkout
  simp only [h]

theorem replace_ok (uid : Int) (body : PostBody) (exs : List InputExercise) (st : Store)
    (hwf : WF st) (hd : body.workout_date ≠ "") (hx : body.exercises = some exs) :
    ∃ st5, postWorkouts noPostFail uid body st =
        (.created (upsertWorkout uid body.workout_date body.title body.notes st).1.id, st5) ∧
      WF st5 ∧
      ReplaceSpec exs st5 (upsertWorkout uid body.workout_date body.title body.notes st).1.id ∧
      st5.workouts.find?
          (fun x => x.user_id == uid && x.workout_date == body.workout_date) =
        some (upsertWorkout uid body.workout_date body.title body.notes st).1 := by
  obtain ⟨hn0, hwb, heb, hsb, hwnd, hend, hsnd, hudnd, heref, hsref⟩ := id hwf
  unfold postWorkouts
  rw [if_neg hd]
  simp only [hx, noPostFail]
  set w := (upsertWorkout uid body.workout_date body.title body.notes st).1 with hw
  set st1 := (upsertWorkout uid body.workout_date body.title body.notes st).2 with hst1
  set oldIds := ((st1.exercises.filter (fun e : ExerciseRow => e.workout_id == w.id)).map
      (fun e : ExerciseRow => e.id)) with holdIds
  set st2 := (if oldIds.isEmpty then st1 else
      { st1 with sets := st1.sets.filter (fun s => ¬ oldIds.contains s.exercise_id) }) with hst2
  set st3 := ({ st2 with
      exercises := st2.exercises.filter (fun e => ¬ (e.workout_id == w.id)) }) with hst3
  set insEx := (insertExercisesFrom w.id 1 exs st3).1 with hinsEx
  set st4 := (insertExercisesFrom w.id 1 exs st3).2 with hst4
  have h1e : st1.exercises = st.exercises :=
    upsertWorkout_exercises uid body.workout_date body.title body.notes st
  have h1s : st1.sets = st.sets :=
    upsertWorkout_sets uid body.workout_date body.title body.notes st
  have h1n : st.nextId ≤ st1.nextId :=
    (upsertWorkout_nextId uid body.workout_date body.title body.notes st).1
  have hwmem : w ∈ st1.workouts :=
    upsertWorkout_mem_self uid body.workout_date body.title body.notes st
  have hwfind : st1.workouts.find?
      (fun x => x.user_id == uid && x.workout_date == body.workout_date) = some w :=
    upsertWorkout_find uid body.workout_date body.title body.notes st
  have hwbounds1 : ∀ x ∈ st1.workouts, 0 ≤ x.id ∧ x.id < st1.nextId :=
    upsertWorkout_bounds uid body.workout_date body.title body.notes st hn0 hwb
  have hwnd1 : (st1.workouts.map (fun x => x.id)).Nodup :=
    upsertWorkout_ids_nodup uid body.workout_date body.title body.notes st hwf
  have hudnd1 : (st1.workouts.map (fun x => (x.user_id, x.workout_date))).Nodup :=
    upsertWorkout_userdate_nodup uid body.workout_date body.title body.notes st hwf
  have hcover : ∀ x ∈ st.workouts, ∃ y ∈ st1.workouts, y.id = x.id :=
    upsertWorkout_ids_cover uid body.workout_date body.title body.notes st hwf
  have h2w : st2.workouts = st1.workouts := by
    rw [hst2]
    split <;> rfl
  have h2e : st2.exercises = st1.exercises := by
    rw [hst2]
    split <;> rfl
  have h2n : st2.nextId = st1.nextId := by
    rw [hst2]
    split <;> rfl
  have h2s_sub : ∀ s ∈ st2.sets, s ∈ st.sets := by
    rw [hst2]
    split
    · intro s hs
      rwa [h1s] at hs
    · intro s hs
      have := List.mem_of_mem_filter hs
      rwa [h1s] at this
  have h2s_nd : (st2.sets.map (fun s => s.id)).Nodup := by
    rw [hst2]
    split
    · rw [h1s]
      exact hsnd
    · show ((st1.sets.filter (fun s => ¬ oldIds.contains s.exercise_id)).map
        (fun s => s.id)).Nodup
      apply List.Nodup.sublist ((List.filter_sublist st1.sets).map (fun s => s.id))
      rw [h1s]
      exact hsnd
  have h3w : st3.workouts = st1.workouts := by
    rw [hst3]
    exact h2w
  have h3s : st3.sets = st2.sets := by
    rw [hst3]
  have h3n : st3.nextId = st1.nextId := by
    rw [hst3]
    exact h2n
  have h3e : st3.exercises = st.exercises.filter (fun e => ¬ (e.workout_id == w.id)) := by
    rw [hst3]
    show st2.exercises.filter (fun e => ¬ (e.workout_id == w.id)) =
      st.exercises.filter (fun e => ¬ (e.workout_id == w.id))
    rw [h2e, h1e]
  have h3fil : st3.exercises.filter (fun e => e.workout_id == w.id) = [] := by
    rw [h3e]
    apply List.filter_eq_nil_iff.mpr
    intro e he
    have h2 := List.of_mem_filter he
    simp only [decide_eq_true_eq] at h2
    exact h2
  have hspec := insertExercisesFrom_spec w.id exs 1 st3
  have h4w : st4.workouts = st3.workouts := hspec.1
  have h4s : st4.sets = st3.sets := hspec.2.1
  have h4e : st4.exercises = st3.exercises ++ insEx := hspec.2.2.1
  have h4n : st4.nextId = st3.nextId + (exs.length : Int) := hspec.2.2.2.1
  have hposmap : insEx.map (fun e => (e.name, e.position)) = posNumbered 1 exs :=
    hspec.2.2.2.2.1
  have h4rows : ∀ r ∈ insEx,
      r.workout_id = w.id ∧ st3.nextId ≤ r.id ∧ r.id < st3.nextId + (exs.length : Int) :=
    hspec.2.2.2.2.2.1
  have h4pair : (insEx.map (fun r => r.id)).Pairwise (· < ·) := hspec.2.2.2.2.2.2
  have hlen : insEx.length = exs.length := insertExercisesFrom_length w.id 1 exs st3
  have hinsnd : (insEx.map (fun r => r.id)).Nodup := h4pair.imp (fun h => ne_of_lt h)
  have hpairsnd : ((exs.zip insEx).map (fun p => p.2.id)).Nodup := by
    have hzs : (exs.zip insEx).map Prod.snd = insEx :=
      List.map_snd_zip exs insEx (le_of_eq hlen)
    have hmm : (exs.zip insEx).map (fun p => p.2.id) =
        ((exs.zip insEx).map Prod.snd).map (fun r => r.id) := by
      rw [List.map_map]
      exact List.map_congr_left (fun p _ => rfl)
    rw [hmm, hzs]
    exact hinsnd
  obtain ⟨h5w, h5e, h5n, newRows, h5s, hproj, hbounds5, hpair5⟩ :=
    insertSets_spec (setRowsFor (exs.zip insEx)) st4
  have hcur : (insertSets (setRowsFor (exs.zip insEx)) st4).exercises.filter
      (fun e => e.workout_id == w.id) = insEx := by
    rw [h5e, h4e, List.filter_append, h3fil, List.nil_append]
    apply List.filter_eq_self.mpr
    intro r hr
    simp [(h4rows r hr).1]
  have hfind5 : (insertSets (setRowsFor (exs.zip insEx)) st4).workouts.find?
      (fun x => x.user_id == uid && x.workout_date == body.workout_date) = some w := by
    rw [h5w, h4w, h3w]
    exact hwfind
  have hrs5 : ReplaceSpec exs (insertSets (setRowsFor (exs.zip insEx)) st4) w.id := by
    unfold ReplaceSpec
    simp only []
    rw [hcur]
    constructor
    · exact hposmap
    · apply List.forall₂_iff_zip.mpr
      constructor
      · exact hlen
      · intro r ex hmem
        have hmem2 : (ex, r) ∈ exs.zip insEx := by
          rw [← List.zip_swap]
          exact List.mem_map_of_mem Prod.swap hmem
        have hrmem : r ∈ insEx := (List.of_mem_zip hmem).1
        show ((insertSets (setRowsFor (exs.zip insEx)) st4).sets.filter
            (fun s => s.exercise_id == r.id)).map (fun s => (s.set_no, s.reps, s.weight_kg))
          = setTriples 1 (ex.sets.getD [])
        rw [h5s, List.filter_append]
        have hold : st4.sets.filter (fun s => s.exercise_id == r.id) = [] := by
          apply List.filter_eq_nil_iff.mpr
          intro s hs
          rw [h4s, h3s] at hs
          have hsmem := h2s_sub s hs
          obtain ⟨e, he, heid⟩ := hsref s hsmem
          have hlt := (heb e he).2
          have hfresh := (h4rows r hrmem).2.1
          simp only [beq_iff_eq]
          intro hc
          omega
        rw [hold, List.nil_append]
        have htrans := filter_map_of_proj_eq newRows (setRowsFor (exs.zip insEx)) hproj r.id
        rw [htrans]
        have hf : (setRowsFor (exs.zip insEx)).filter (fun rr => rr.exercise_id == r.id) =
            numberSets r.id 1 (ex.sets.getD []) :=
          setRowsFor_filter_of_mem (exs.zip insEx) hpairsnd (ex, r) hmem2
        rw [hf]
        exact numberSets_map r.id (ex.sets.getD []) 1
  have hnewids : ∀ s ∈ newRows, ∃ r ∈ insEx, r.id = s.exercise_id := by
    intro s hs
    have htup : (s.exercise_id, s.set_no, s.reps, s.weight_kg) ∈
        newRows.map (fun q => (q.exercise_id, q.set_no, q.reps, q.weight_kg)) :=
      List.mem_map_of_mem _ hs
    rw [hproj] at htup
    obtain ⟨q, hq, hqproj⟩ := List.mem_map.mp htup
    have hqe : q.exercise_id = s.exercise_id :=
      congrArg (fun t : Int × Int × Option JsRat × Option JsRat => t.1) hqproj
    obtain ⟨p, hp, hpid⟩ := setRowsFor_mem_ids _ q hq
    have hpins : p.2 ∈ insEx := (List.of_mem_zip hp).2
    exact ⟨p.2, hpins, by rw [← hpid, hqe]⟩
  have hwf5 : WF (insertSets (setRowsFor (exs.zip insEx)) st4) := by
    refine ⟨?_, ?_, ?_, ?_, ?_, ?_, ?_, ?_, ?_, ?_⟩
    · rw [h5n, h4n, h3n]
      omega
    · intro x hx
      rw [h5w, h4w, h3w] at hx
      have hb := hwbounds1 x hx
      have e1 := h5n
      have e2 := h4n
      have e3 := h3n
      omega
    · intro e he
      rw [h5e, h4e] at he
      rcases List.mem_append.mp he with h | h
      · rw [h3e] at h
        have hmem := List.mem_of_mem_filter h
        have hb := heb e hmem
        have e1 := h5n
        have e2 := h4n
        have e3 := h3n
        omega
      · have hb := (h4rows e h).2
        have e1 := h5n
        have e2 := h4n
        have e3 := h3n
        omega
    · intro s hs
      rw [h5s] at hs
      rcases List.mem_append.mp hs with h | h
      · rw [h4s, h3s] at h
        have hb := hsb s (h2s_sub s h)
        have e1 := h5n
        have e2 := h4n
        have e3 := h3n
        omega
      · have hb := hbounds5 s h
        have e1 := h5n
        have e2 := h4n
        have e3 := h3n
        omega
    · rw [h5w, h4w, h3w]
      exact hwnd1
    · rw [h5e, h4e, List.map_append]
      apply List.Nodup.append
      · rw [h3e]
        apply List.Nodup.sublist ((List.filter_sublist st.exercises).map (fun e => e.id))
        exact hend
      · exact hinsnd
      · intro a ha hb
        obtain ⟨e, he, hei⟩ := List.mem_map.mp ha
        obtain ⟨r, hr, hri⟩ := List.mem_map.mp hb
        rw [h3e] at he
        have hmem := List.mem_of_mem_filter he
        have hb1 := (heb e hmem).2
        have hb2 := (h4rows r hr).2.1
        have e3 := h3n
        omega
    · rw [h5s, List.map_append]
      apply List.Nodup.append
      · rw [h4s, h3s]
        exact h2s_nd
      · exact hpair5.imp (fun h => ne_of_lt h)
      · intro a ha hb
        obtain ⟨s, hs, hsi⟩ := List.mem_map.mp ha
        obtain ⟨q, hq, hqi⟩ := List.mem_map.mp hb
        rw [h4s, h3s] at hs
        have hb1 := (hsb s (h2s_sub s hs)).2
        have hb2 := (hbounds5 q hq).1
        have e2 := h4n
        have e3 := h3n
        omega
    · rw [h5w, h4w, h3w]
      exact hudnd1
    · intro e he
      rw [h5e, h4e] at he
      rcases List.mem_append.mp he with h | h
      · rw [h3e] at h
        have hmem := List.mem_of_mem_filter h
        obtain ⟨x, hx, hxid⟩ := heref e hmem
        obtain ⟨y, hy, hyid⟩ := hcover x hx
        refine ⟨y, ?_, by rw [hyid, hxid]⟩
        rw [h5w, h4w, h3w]
        exact hy
      · refine ⟨w, ?_, ((h4rows e h).1).symm⟩
        rw [h5w, h4w, h3w]
        exact hwmem
    · intro s hs
      rw [h5s] at hs
      rcases List.mem_append.mp hs with h | h
      · rw [h4s, h3s] at h
        obtain ⟨e, he, heid⟩ := hsref s (h2s_sub s h)
        have he3 : e ∈ st3.exercises := by
          rw [h3e]
          apply List.mem_filter.mpr
          refine ⟨he, ?_⟩
          simp only [decide_eq_true_eq, beq_iff_eq]
          intro hc
          have hin : s.exercise_id ∈ oldIds := by
            rw [holdIds, h1e]
            apply List.mem_map.mpr
            refine ⟨e, ?_, heid⟩
            apply List.mem_filter.mpr
            exact ⟨he, by simp [hc]⟩
          have hs2 : s ∈ st2.sets := h
          rw [hst2] at hs2
          by_cases hemp : oldIds.isEmpty = true
          · rw [List.isEmpty_iff.mp hemp] at hin
            cases hin
          · rw [if_neg hemp] at hs2
            have hpred := List.of_mem_filter hs2
            simp only [decide_eq_true_eq] at hpred
            exact hpred (by simpa using hin)
        refine ⟨e, ?_, heid⟩
        rw [h5e, h4e]
        exact List.mem_append_left _ he3
      · obtain ⟨r, hr, hrid⟩ := hnewids s h
        refine ⟨r, ?_, hrid⟩
        rw [h5e, h4e]
        exact List.mem_append_right _ hr
  split
  · rename_i hempty
    refine ⟨insertSets (setRowsFor (exs.zip insEx)) st4, ?_, hwf5, hrs5, hfind5⟩
    have hnil : setRowsFor (exs.zip insEx) = [] := List.isEmpty_iff.mp hempty
    rw [hnil]
    rfl
  · exact ⟨insertSets (setRowsFor (exs.zip insEx)) st4, rfl, hwf5, hrs5, hfind5⟩


/-- Claim C5: a successful replace leaves, for the upserted workout, exactly
the input exercises in input order with dense 1-based positions, each with
its input sets numbered densely from 1 and carrying the coerced values; and
a second replace for the same (user, date) targets the same workout id and
leaves exactly the second call's exercises and sets. -/
theorem c5_replace_contents (uid : Int) (body body2 : PostBody)
    (exs exs2 : List InputExercise) (st : Store) (hwf : WF st)
    (hd : body.workout_date ≠ "") (hx : body.exercises = some exs)
    (hd2 : body2.workout_date = body.workout_date) (hx2 : body2.exercises = some exs2) :
    ∃ wid stA stB,
      postWorkouts noPostFail uid body st = (.created wid, stA) ∧
      ReplaceSpec exs stA wid ∧ WF stA ∧
      postWorkouts noPostFail uid body2 stA = (.created wid, stB) ∧
      ReplaceSpec exs2 stB wid := by
  obtain ⟨stA, h1, hwf1, hrs1, hfind1⟩ := replace_ok uid body exs st hwf hd hx
  obtain ⟨stB, h2, hwf2, hrs2, hfind2⟩ := replace_ok uid body2 exs2 stA hwf1
    (by rw [hd2]; exact hd) hx2
  have hid : (upsertWorkout uid body2.workout_date body2.title body2.notes stA).1.id =
      (upsertWorkout uid body.workout_date body.title body.notes st).1.id := by
    apply upsertWorkout_id_of_find
    rw [hd2]
    exact hfind1
  refine ⟨(upsertWorkout uid body.workout_date body.title body.notes st).1.id, stA, stB,
    h1, hrs1, hwf1, ?_, ?_⟩
  · rw [h2, hid]
  · rw [← hid]
    exact hrs2

/-- Witness for C5: two concrete replaces for the same user and date. -/
theorem c5_replace_contents_witness :
    ∃ wid stA stB,
      postWorkouts noPostFail 7
        (⟨"2024-01-01", none, none,
          some [⟨"Bench", some [⟨JsVal.num ⟨5, 1⟩, JsVal.num ⟨100, 1⟩⟩]⟩]⟩ : PostBody)
        (⟨[], [], [], 0⟩ : Store) = (.created wid, stA) ∧
      ReplaceSpec [⟨"Bench", some [⟨JsVal.num ⟨5, 1⟩, JsVal.num ⟨100, 1⟩⟩]⟩] stA wid ∧
      WF stA ∧
      postWorkouts noPostFail 7
        (⟨"2024-01-01", some "t2", none, some [⟨"Squat", some []⟩]⟩ : PostBody) stA =
        (.created wid, stB) ∧
      ReplaceSpec [⟨"Squat", some []⟩] stB wid :=
  c5_replace_contents 7
    (⟨"2024-01-01", none, none,
      some [⟨"Bench", some [⟨JsVal.num ⟨5, 1⟩, JsVal.num ⟨100, 1⟩⟩]⟩]⟩ : PostBody)
    (⟨"2024-01-01", some "t2", none, some [⟨"Squat", some []⟩]⟩ : PostBody)
    [⟨"Bench", some [⟨JsVal.num ⟨5, 1⟩, JsVal.num ⟨100, 1⟩⟩]⟩]
    [⟨"Squat", some []⟩]
    (⟨[], [], [], 0⟩ : Store) (by decide) (by decide) rfl rfl rfl

end FitnessBackend
